import Mathlib

/-
  A shallow embedding of the chester chess engine core
  (src/chess_core and src/chess_engines of the repository).

  Representation choices:
  * A square is a `Nat` in [0,64) (rank = sq / 8, file = sq % 8), as in
    src/chess_core/src/square.rs.
  * A bitboard is a `Nat` below 2^64; the u64 bit operations of
    src/chess_core/src/state/bitboard.rs become Nat bit operations with an
    explicit 64-bit mask where Rust wraps (shifts, negation).
  * A move is the packed 16-bit integer of src/chess_core/src/move/mod.rs:
    from-square (6 bits) | to-square (6 bits) | code (4 bits).
  * The per-square move maps of src/chess_core/src/move/move_maps.rs
    ([BitBoard; 64] arrays in the source) are packed into one Nat each,
    64 bits per square; `mapAt t sq` is the source's `map[sq]`.  The
    `*MapSpec` functions build each entry exactly as `MoveMaps::new` does
    (offset sets and ray walks); the `*Table` constants are the same data
    as literals, and the `*Table_eq` theorems prove them equal, so the
    engine can be evaluated on the literals.
  * The board state exists in two connected forms: the record `State`
    (mirroring the source's `State` struct field by field, used by the FEN
    layer) and a single-Nat packed form used by the engine, with
    `packState` mapping the former to the latter.
-/

namespace Chester

/-! ## Bit primitives (src/chess_core/src/state/bitboard.rs) -/

/-- Mask of a full 64-bit word (`BitBoard::FULL`). -/
@[macro_inline] def FULL : Nat := 0xFFFFFFFFFFFFFFFF

/-- Bitwise complement on 64 bits (Rust `!` on u64). -/
@[macro_inline] def bbNot (b : Nat) : Nat := b ^^^ FULL

/-- `1 << sq`: the bitboard of a single square (`BitBoard::from(Square)`). -/
@[macro_inline] def sqBB (sq : Nat) : Nat := 1 <<< sq

/-- Branch on a `Nat` scrutinee being zero: `nifz x a b` is "if `x = 0`
then `a` else `b`", written with `Nat.casesOn` and inlined at elaboration.
The engine phrases every hot conditional through it so that kernel
evaluation stays on the recursor and never unfolds `Decidable`
instances. -/
@[macro_inline] def nifz {α : Sort u} (x : Nat) (a b : α) : α :=
  Nat.casesOn x a (fun _ => b)

/-- Strict-order branch: `niflt a b t f` is "if `a < b` then `t` else `f`"
(on `Nat`, `a < b` holds exactly when `b - a ≠ 0`). -/
@[macro_inline] def niflt {α : Sort u} (a b : Nat) (t f : α) : α :=
  nifz (b - a) f t

/-- Equality branch: `nifeq a b t f` is "if `a = b` then `t` else `f`"
(on `Nat`, `a = b` holds exactly when `(a - b) + (b - a) = 0`). -/
@[macro_inline] def nifeq {α : Sort u} (a b : Nat) (t f : α) : α :=
  nifz ((a - b) + (b - a)) t f

/-- The 64-bit De Bruijn multiplier behind the bit scans: multiplying a
single-bit word by it and keeping the top six bits yields a distinct index
for each of the 64 bit positions. -/
def DEBRUIJN : Nat := 0x03f79d71b4cb0a89

/-- The inverse table of the De Bruijn multiplication, packed six bits per
entry: entry `(2^k * DEBRUIJN mod 2^64) >>> 58` holds `k`. -/
def DBIDX : Nat := 3762508819988097413073072872543584677525223375037184394338996487988414181932085329055353629958208714152624052174912

/-- Index of the least significant set bit of a nonzero word
(u64::trailing_zeros): isolate the lowest bit with `b ^^^ (b &&& (b - 1))`
and look its position up through the De Bruijn multiplication
(`lsbIdx_single` below checks all 64 positions against the
specification). -/
@[macro_inline] def lsbIdx (b : Nat) : Nat :=
  (DBIDX >>> ((((b ^^^ (b &&& (b - 1))) * DEBRUIJN &&& FULL) >>> 58) * 6)) &&& 63

/-- Index of the most significant set bit of a nonzero word
(`63 - leading_zeros`): smear the top bit downward, isolate it, and look
it up as in `lsbIdx` (`msbIdx_single` below checks all 64 positions). -/
@[macro_inline] def msbIdx (b : Nat) : Nat :=
  let n1 := b ||| (b >>> 1)
  let n2 := n1 ||| (n1 >>> 2)
  let n3 := n2 ||| (n2 >>> 4)
  let n4 := n3 ||| (n3 >>> 8)
  let n5 := n4 ||| (n4 >>> 16)
  let n6 := n5 ||| (n5 >>> 32)
  (DBIDX >>> ((((n6 - (n6 >>> 1)) * DEBRUIJN &&& FULL) >>> 58) * 6)) &&& 63

/-- Clear the least significant set bit (the mutation step of
`BitBoard::pop_first_square`). -/
@[macro_inline] def popLsb (b : Nat) : Nat := b &&& (b - 1)

/-- `BitBoard::get_first_square`. -/
def bbFirst (b : Nat) : Option Nat := if b = 0 then none else some (lsbIdx b)

/-- `BitBoard::get_last_square`. -/
def bbLast (b : Nat) : Option Nat := if b = 0 then none else some (msbIdx b)

/-- The squares of a bitboard in `pop_first_square` order (ascending).
The fuel argument (always 64 at call sites) keeps the recursion
structural. -/
def bbSquaresAsc : Nat → Nat → List Nat
  | 0, _ => []
  | fuel+1, b =>
    match b with
    | 0 => []
    | b2+1 => lsbIdx (b2+1) :: bbSquaresAsc fuel (popLsb (b2+1))

/-- `BitBoard::file` mask. -/
def bbFile (n : Nat) : Nat := 0x0101010101010101 <<< n

/-- `BitBoard::rank` mask. -/
def bbRank (n : Nat) : Nat := 0xFF <<< (n * 8)

/-! ## Colors, piece types, castle sides -/

/-- The `Color` enum of src/chess_core/src/color.rs. -/
inductive Color where
  | White
  | Black
deriving DecidableEq, Repr

/-- Logical complement of a color (`impl Not for Color`). -/
def Color.not : Color → Color
  | .White => .Black
  | .Black => .White

/-- The `PieceType` enum of src/chess_core/src/state/chess_board.rs. -/
inductive Piece where
  | Pawn
  | Knight
  | Bishop
  | Rook
  | Queen
  | King
deriving DecidableEq, Repr

/-- `PieceType::as_array`. -/
def pieceArray : List Piece := [.Pawn, .Knight, .Bishop, .Rook, .Queen, .King]

/-- The `CastleSide` enum of src/chess_core/src/square.rs. -/
inductive CSide where
  | King
  | Queen
deriving DecidableEq, Repr

/-- `CastleSide::as_array`. -/
def csideArray : List CSide := [.King, .Queen]

/-! ## The record form of the board state (src/chess_core/src/state/) -/

/-- `ChessBoardSide`: one bitboard per piece type for a single color. -/
structure ChessBoardSide where
  pawn : Nat
  knight : Nat
  bishop : Nat
  rook : Nat
  queen : Nat
  king : Nat
deriving DecidableEq, Repr

/-- Indexing a side by piece type (`Index<PieceType> for ChessBoardSide`). -/
def ChessBoardSide.get (s : ChessBoardSide) : Piece → Nat
  | .Pawn => s.pawn
  | .Knight => s.knight
  | .Bishop => s.bishop
  | .Rook => s.rook
  | .Queen => s.queen
  | .King => s.king

/-- Functional update of a side at a piece type (`IndexMut`). -/
def ChessBoardSide.set (s : ChessBoardSide) (p : Piece) (b : Nat) : ChessBoardSide :=
  match p with
  | .Pawn => { s with pawn := b }
  | .Knight => { s with knight := b }
  | .Bishop => { s with bishop := b }
  | .Rook => { s with rook := b }
  | .Queen => { s with queen := b }
  | .King => { s with king := b }

/-- `ChessBoardSide::union`. -/
def ChessBoardSide.union (s : ChessBoardSide) : Nat :=
  s.pawn ||| s.knight ||| s.bishop ||| s.rook ||| s.queen ||| s.king

/-- `ChessBoard`: both sides. -/
structure ChessBoard where
  white : ChessBoardSide
  black : ChessBoardSide
deriving DecidableEq, Repr

/-- Indexing the board by color. -/
def ChessBoard.get (b : ChessBoard) : Color → ChessBoardSide
  | .White => b.white
  | .Black => b.black

/-- Functional update of the board at a color. -/
def ChessBoard.setC (b : ChessBoard) (c : Color) (s : ChessBoardSide) : ChessBoard :=
  match c with
  | .White => { b with white := s }
  | .Black => { b with black := s }

/-- `ChessBoard::EMPTY`. -/
def ChessBoard.emptyB : ChessBoard :=
  { white := ⟨0, 0, 0, 0, 0, 0⟩, black := ⟨0, 0, 0, 0, 0, 0⟩ }

/-- `StateFlags` of src/chess_core/src/state/flags.rs: active color and
the four castling-right bits. -/
structure StateFlags where
  active_color : Color
  white_king_castle_right : Bool
  white_queen_castle_right : Bool
  black_king_castle_right : Bool
  black_queen_castle_right : Bool
deriving DecidableEq, Repr

/-- `StateFlags::castle_right`. -/
def StateFlags.castle_right (f : StateFlags) : Color → CSide → Bool
  | .White, .King => f.white_king_castle_right
  | .White, .Queen => f.white_queen_castle_right
  | .Black, .King => f.black_king_castle_right
  | .Black, .Queen => f.black_queen_castle_right

/-- `State` of src/chess_core/src/state/mod.rs: board, en-passant
bitboard, flags, halfmove counter (a u8 in the source). -/
structure State where
  boards : ChessBoard
  en_passant : Nat
  flags : StateFlags
  halfmove : Nat
deriving DecidableEq, Repr

/-! ## Move encoding (src/chess_core/src/move/mod.rs) -/

/-- `MoveCode::QuietMove`. -/
def QUIET : Nat := 0
/-- `MoveCode::DoublePawnPush`. -/
def DOUBLE_PAWN_PUSH : Nat := 1
/-- `MoveCode::KingCastle`. -/
def KING_CASTLE : Nat := 2
/-- `MoveCode::QueenCastle`. -/
def QUEEN_CASTLE : Nat := 3
/-- `MoveCode::Capture`. -/
def CAPTURE : Nat := 4
/-- `MoveCode::EnPassant`. -/
def EN_PASSANT : Nat := 5
/-- `MoveCode::KnightPromotion`. -/
def KNIGHT_PROMOTION : Nat := 6
/-- `MoveCode::BishopPromotion`. -/
def BISHOP_PROMOTION : Nat := 7
/-- `MoveCode::RookPromotion`. -/
def ROOK_PROMOTION : Nat := 8
/-- `MoveCode::QueenPromotion`. -/
def QUEEN_PROMOTION : Nat := 9
/-- `MoveCode::KnightPromotionCapture`. -/
def KNIGHT_PROMOTION_CAPTURE : Nat := 10
/-- `MoveCode::BishopPromotionCapture`. -/
def BISHOP_PROMOTION_CAPTURE : Nat := 11
/-- `MoveCode::RookPromotionCapture`. -/
def ROOK_PROMOTION_CAPTURE : Nat := 12
/-- `MoveCode::QueenPromotionCapture`. -/
def QUEEN_PROMOTION_CAPTURE : Nat := 13

/-- `Move::new`: pack from-square, to-square and code into one word
(6 + 6 + 4 bits). -/
@[macro_inline] def mkMove (src tgt code : Nat) : Nat := src ||| (tgt <<< 6) ||| (code <<< 12)

/-- From-square of a packed move. -/
@[macro_inline] def mFrom (m : Nat) : Nat := m &&& 63

/-- To-square of a packed move. -/
@[macro_inline] def mTo (m : Nat) : Nat := (m >>> 6) &&& 63

/-- Code of a packed move. -/
@[macro_inline] def mCode (m : Nat) : Nat := m >>> 12

/-- `MoveCode::is_capture`. -/
def codeIsCapture (c : Nat) : Bool :=
  c == CAPTURE || c == EN_PASSANT || c == KNIGHT_PROMOTION_CAPTURE ||
  c == BISHOP_PROMOTION_CAPTURE || c == ROOK_PROMOTION_CAPTURE ||
  c == QUEEN_PROMOTION_CAPTURE

/-- `MoveCode::is_quiet`. -/
def codeIsQuiet (c : Nat) : Bool :=
  c == QUIET || c == DOUBLE_PAWN_PUSH || c == KING_CASTLE || c == QUEEN_CASTLE

/-- `MoveCode::as_promotion`. -/
def codeAsPromotion (c : Nat) : Option Piece :=
  if c = KNIGHT_PROMOTION ∨ c = KNIGHT_PROMOTION_CAPTURE then some .Knight
  else if c = BISHOP_PROMOTION ∨ c = BISHOP_PROMOTION_CAPTURE then some .Bishop
  else if c = ROOK_PROMOTION ∨ c = ROOK_PROMOTION_CAPTURE then some .Rook
  else if c = QUEEN_PROMOTION ∨ c = QUEEN_PROMOTION_CAPTURE then some .Queen
  else none

/-- `MoveCode::as_castle`. -/
def codeAsCastle (c : Nat) : Option CSide :=
  if c = KING_CASTLE then some .King
  else if c = QUEEN_CASTLE then some .Queen
  else none

/-! ## Move maps (src/chess_core/src/move/move_maps.rs) -/

/-- Extract the 64-bit entry of square `sq` from a packed map table
(the source's `map[sq]`). -/
@[macro_inline] def mapAt (t sq : Nat) : Nat := (t >>> (64 * sq)) &&& FULL

/-- `Square::with_offset`: apply a (rank, file) offset, `none` when
off-board (the checked conversions plus `Square::new`). -/
def squareWithOffset (sq : Nat) (dr df : Int) : Option Nat :=
  let r : Int := (sq / 8 : Nat) + dr
  let f : Int := (sq % 8 : Nat) + df
  if 0 ≤ r ∧ r < 8 ∧ 0 ≤ f ∧ f < 8 then some (r.toNat * 8 + f.toNat) else none

/-- One square's entry of `MoveMap::from_offsets`. -/
def mapFromOffsets (offs : List (Int × Int)) (sq : Nat) : Nat :=
  offs.foldl (fun acc o =>
    match squareWithOffset sq o.1 o.2 with
    | some t => acc ||| sqBB t
    | none => acc) 0

/-- The ray walk of `MoveMap::from_direction` (at most 7 steps; fuel 8). -/
def mapFromDirectionAux (dr df : Int) : Nat → Nat → Nat
  | 0, _ => 0
  | fuel+1, sq =>
    match squareWithOffset sq dr df with
    | some t => sqBB t ||| mapFromDirectionAux dr df fuel t
    | none => 0

/-- One square's entry of `MoveMap::from_direction`. -/
def mapFromDirection (dr df : Int) (sq : Nat) : Nat :=
  mapFromDirectionAux dr df 8 sq

/-- `Offset::permute_signs`. -/
def permuteSigns (r f : Int) : List (Int × Int) :=
  [(-r, -f), (-r, f), (r, -f), (r, f)]

/-- `Offset::directions`. -/
def directionOffsets (v : Int) : List (Int × Int) :=
  [(v, 0), (-v, 0), (0, v), (0, -v)]

/-- One square's entry of `MoveMap::double_pawn`. -/
def doublePawnAt (c : Color) (sq : Nat) : Nat :=
  let fromRank := match c with | .White => 1 | .Black => 6
  let toRank := match c with | .White => 3 | .Black => 4
  if sq / 8 = fromRank then sqBB (toRank * 8 + sq % 8) else 0

/-- Pack a per-square map into a single table Nat (64 bits per square). -/
def packMap (f : Nat → Nat) : Nat :=
  (List.range 64).foldl (fun acc sq => acc ||| ((f sq &&& FULL) <<< (64 * sq))) 0

/-- The knight map of `MoveMaps::new`. -/
def knightMapSpec : Nat := packMap (mapFromOffsets (permuteSigns 2 1 ++ permuteSigns 1 2))

/-- The king map of `MoveMaps::new`. -/
def kingMapSpec : Nat := packMap (mapFromOffsets (permuteSigns 1 1 ++ directionOffsets 1))

/-- The NE-diagonal ray map. -/
def neDiagSpec : Nat := packMap (mapFromDirection 1 1)
/-- The NW-diagonal ray map. -/
def nwDiagSpec : Nat := packMap (mapFromDirection 1 (-1))
/-- The SW-diagonal ray map. -/
def swDiagSpec : Nat := packMap (mapFromDirection (-1) (-1))
/-- The SE-diagonal ray map. -/
def seDiagSpec : Nat := packMap (mapFromDirection (-1) 1)
/-- The east rank-ray map. -/
def eRankSpec : Nat := packMap (mapFromDirection 0 1)
/-- The west rank-ray map. -/
def wRankSpec : Nat := packMap (mapFromDirection 0 (-1))
/-- The north file-ray map. -/
def nFileSpec : Nat := packMap (mapFromDirection 1 0)
/-- The south file-ray map. -/
def sFileSpec : Nat := packMap (mapFromDirection (-1) 0)
/-- The white single-push pawn map. -/
def whitePawnPassiveSpec : Nat := packMap (mapFromOffsets [(1, 0)])
/-- The black single-push pawn map. -/
def blackPawnPassiveSpec : Nat := packMap (mapFromOffsets [(-1, 0)])
/-- The white double-push pawn map. -/
def whitePawnDoubleSpec : Nat := packMap (doublePawnAt .White)
/-- The black double-push pawn map. -/
def blackPawnDoubleSpec : Nat := packMap (doublePawnAt .Black)
/-- The white pawn-attack map. -/
def whitePawnAttackSpec : Nat := packMap (mapFromOffsets [(1, -1), (1, 1)])
/-- The black pawn-attack map. -/
def blackPawnAttackSpec : Nat := packMap (mapFromOffsets [(-1, -1), (-1, 1)])
def knightTable : Nat := 513939535912691777675632830011314898194612868029098360788517199561153632360406287452469109921090029698114425320511691469180503624690071133954665309682317447505780739491788685048416700897327620659745902605802696430297961450200268425332944049383185148369223528330439800441197926362238200126652358551104433140497789202355307276162240116430102839360120878296204950686823717631493367403576510439598103059035343160276044408216342803499555101107085528045691350899994579156777018351127119723015753172986895766332197406491253478552711097499909679833419414576282712542406106965384281063637808107231968998742999958036519973142249350932304167305501418470704596678220421902490246580304221474909000167222200763169813152501802161863983313579227611473803372101476770760294741791360951077356762934883557847973079680852337689320494327269472839170065566149946887756665039031904635843323511631451053562729556809490860561307009918991079054605855227952036817493563105358979477217702024037472831578118855801448679925611578237463313179849913088468384479981680546071020278998756413789778820890932323795886748438660975812028136352263239122318622786183510870777191943352166511473301685502175834015151244991679547389588504429729025520828055705008466544428032
def kingTable : Nat := 264156953404303221942965456845520169943338131686959457571923483305847700807756015278523080229634291642515512720379625415998002953236261368416231289172962087581631836949632484485374128384042241167767238328839609345999581058902843519220522533010089460509691504134318410705948550815871684624129262584144679450375577516853549321385304640527173977257963981185058145004392430004920757193513662022124161582037751993358113738392556746340778223921459532777419462161470159266292566629421223289735171488785910795161776385657266694147649333362115172351610523231845668460090962715276894573444254369990775232331132268849557724313065912683493668947829856478151951159284505866793138560624849509035187602156442778386411887663101274153823504021964272696893363867973003949169458187179211139044512649965423452258986954306563254194786172624618451824331366376025123799638401059200901742783754479523040980614231175115032572832547924504908033089381101247160924230235416582352026291471553731394765306357524221954697451753155896736924948517990760551476725952332195597056043425041586896526499384433277760923261309259860007430758778948226609719614370898027585215358197905351625343647359059509511991184097756641626351018122181186174494715689259616627757261259522
def neDiagTable : Nat := 2111323305167404895032395134196940697420720340540742553277534510942140050607286387744517726759377447829114201060655384287428966563525909391324616015484483905815579891498870265333479335666594762342947856163188409987874023759512855081230871127000098891972789118427987235661497362760085503403843890902411918472566697675307413079566177363351228966712518530412168442393432711037101570539716024327271584228315173717236782477831035290668267460336428679102317392304482307890737481462403996978129835117578944376007013444350457535074472045163231243133356917698756543444903291697117520188021655160169091707831360283924741803000947740469638022268799558579106431913837470479068071991634214709668712599420548244170235607799987009092915528878243819131412665617581791509274261468862514415467798482660384225198951048968377232568923374836092323673572016482860747072250525508605504942861743288427526207717589224765747383201426432168434501714781942149564801925693331832175332991564932774101283292164905932393983791514855002533544800988920683257830098444079616466251125475412017664
def nwDiagTable : Nat := 19473520333640844691655007689269000882349067731685761729603000328146458166605322689573242026070452290537170908258439348405402279652241489378356086884561619419917717007675860129999897080646898580490217715808025863732409699888576518360751648195965655667745235294947941214641413291556330735175722004755423466855192659539055536198379090608681587702202650917033173984990001198642027241386849312141470338721104411875333912082042409990317844897390667959759455979553323723697343934038821764311231615974239697747477293524339928741186896860207349578408931402695589413064629308163784684602398800085479113963207636113582214526175874305723242790444945349053897218355229503638712689737468316120892006594817837560842011422579809099359994889330678914996764116629742447499756040218643080541551464388794357349664205849426350012506691955236185667061954673040513516946318457283983391830467742538667640858659451666624631735855105568861598421001398140162735159927352158199462330528109272701510742530970920864542797373787903179381802718260097505569560114534330372337711035792032817210253912584906342400
def swDiagTable : Nat := 1021906928975687384155409059349839476779416729137354786864700570586805668738669216642276931366121362281736875498067644902134269892410264974696112889860334708270614862870744658839423074335091186599858858609753963611363771833688447793087294205724879590579228391731606048318848630538495472045419153950385005631169740768034386854273822775320626501353930745314316828106212775390059909092619158733923355374426334009606117257192044799516173958372133796471203139935663298470521735270401712644865810997392798594741949061459114545611167116860341973389591172326593109638468688769899295216028362160295207642522694009589399746823577397174187069976082854058407376793783240667529126836316324739796747510079337792701968192931661261439928862609025206762605033937017939050172856135956467298138569855132720403511310145773142215341652912871937103218916527614985379182958387349902709717455578805075009000368761564842948415833241446213047920520273723672509204124103177793659422105152788753562549472371774308954861608254069879142284908556607108800238238657793271816278483510230610951530966412868864903814923687693295289132127518298401647318370578928456650342834310548395781771708114261936303296339488613786438816647096092618808343474011912050066975621120
def seDiagTable : Nat := 110578974037875567373783572696162228710268246369993375079981750168656723510359426568448880954555554176227928563064935635402438628925973111636012886533581644541475126862058248836793642594260497256692128021580203842133433777295242678367329955381987751216262881868397775096385662455704273677908947099649369811810060901016045605198665634699514551159803213130650716714242503790925217431971310802931336726763982525222973208248313203735954708054056406402986851323112706560381087430444790126816690104437429073557846205401238137462017792311492233583480224485864782162208946664849271513466590503691514257860951842913226678996650015499652878679882691000633020199989094985475286374647767174782267906661601455915120983081603491479658100155333670093498855412557579798912484555035488836564957016794666706295222232793856639947846380127525615703552727837091839212186436787947805378035847517934647465347542628572503077791964569088071831319665749578232056183391631541341380410418488138788115723904458048336137510069752626648129898184800608580004698238646720018092623977108431187370834296046949762651042127191386252126101335842576949051330948970174875903397564751428612852267577666949892014727586955578769003781273635261199725625344
def eRankTable : Nat := 28308217353696145249217191649726837303262630506725702224674117562350850637635905208738675597916192897771951770525197526975382009120457733308954403204949076945785621901549326980021031414741243640376609277495955962448723283699978488881784325804156039128272450929238851896655238678845602312268421294752413636336303646606308191881008877730459285450159023927368222635836670616119646148202335827343581431512231420767039704850328291694501443486321110868621152006530963810636539565713249548278887465194638524632271907845699346140689710580991782023350055313764200172559392760426936620437370066720365267250664554529741070779695604189374016110925733607481985975472651616887102846438423910504295170697214288213687897002776693960984719571862027731139460296411605709540430438846126972055467917693353567410640748233519132062411444076153808547526167228791204682576729705322380062067129240645480554334078928908235835612646572164729392740683135122980382101587373852416101718281154029990895600363800148050736632864594592825141465444595534354004029991634877317980355308025329273305787534460511240800770878372021773350278862694842849507117571498597524979532195054429871880873813661978405875187227625088358531581634016237754559328420094
def wRankTable : Nat := 518114796638556126380544647060847698784616924420292898730539143827446982520573991179809080140098048320571883179680652027840245677719465871997717747605251407399102929212766104086502415574071204404640108771786059643782008220195514369211981977657665591902091966360405378318503954942036122548115575289335526362450895057819825877359772155198435824810783407454721327734525121927189045726964003028671900412255563549006439108629622866372952509122713318400993871967704625897412711526137085003372445040665071361255651487777942048038650497852106518213171708535922584135058745571855383339285100446741132830779390766675736644849047719525770041366534126193103980799831341886471191247070752188261321690913900128435178115832017401430561734531174190950336811945086544898859625364879787495116654026828893728840008614247361650236271222544430284083255565249856895628128042499260445757442008226211689107700052309665701494636370299496833081555012202488387442438430730412740991581672362339031345875856568133082557893039401978379011256167095077858282130169625081346446270383512142502137839879439986106669120797263054969612475122913741905942536046417123238075836254992791210662011990727031402195663782781250555272873767931239729567105900424683917522476466176
def nFileTable : Nat := 38947040667281689383310015378538001764698135463371523459206000656292916333210645379146484052140904581074341816516878696810804559304482979175338404103803922560401511175492923435024172581684911646169055554265620637872375925126877019029006910295375813129422619963975065031857864468068943232762127067575381130679380151905931394878848370247042163252615399162124822194531243694897953959918229966610936957119451232877491967199448162971904637563684624325838541703708741188804819779328932691834574686289296678943551612377858849106677563637744842734898969382222711434569125511419222312385034008573635215175855786670416176065806717740860469157921163179125775681386109166416847555648062799688707784613919232954348058514303181118406800383851416630388813426189982497673112506286576497965656883732715037268059936510315441366045980603428557459941631114981792015090628178339701386203727009256438564845381232586632618611367551086849690653775286674535719735603907613268213856110531615015914609472658613458716069677053351835611194120130356247588837248845959688629142333461544919755708601859265593600
def sFileTable : Nat := 2047821336104220572992654201917439531400305081967526347201206946666321023534605062310463285137918741584705353343512066274400637846302610331122406963996507968441901417990723248943416900972077612242500638755197184230626288639877359410864363210984272102677918502150751004259958336088177857595299777858693826551078012911854952667860220360231110156576418672063360027917240977560141536990510590867210623960991939993957112163350639412197383554273413725019902635903846525608537575872875701804235833560718917716762735337575497043303210297365288390849549278699234107558988849190321192123901549982159401267340965597112608256257559151136561120609529364734034235263524582007091786214633728301515556114265911060042451733644837742870385858177951523117636672198667192734974049117809780917123605132025548063441467713794526188216929559179605482695982385092353914728628936550632399227239149870840822338407009395531280810558567067086795697803459121620906679404338417605260652259643649695571802307387841742298969990444124786252484945525074763418087511847983264684188634161447238749807634244404776784371911494504126958551656805010871455184684297096471715602160959175509241425739437149930925350208475283827815679353945607473680227169645125148780108185600
def whitePawnPassiveTable : Nat := 38947040667281689383310015378538001764698135463371523459206000656292916333210645379146484052140904581074341816516878696810804559304482979175338404103803919655598513490513891926538062911086226976927591126836879401677863969725277384903199784864448945018702381907400836288524387210643888159578420227557103354695642135182605433686905300256140854814298650298820311868591532194788558790635616867997596424566926493113321905383229954928382397328645918650762873704024478079899866373269319606083974811880811156916196606540464409913816645862345766772090172942684416125033527665356640034583577080469100635234101781053808671261748411163665679892508420323339253145539579848300441402972898554283173596754704082446068156795323754801379998246514246630659887965455732595551723146503192295015889956426815419772217806208775284271673433561345702419545414516013134788281381182060220046838500748786190513233279649807205712480746795904287602737869251679037804013109599535893145681554372818632980053709187400483442540494692645076339116244691810891100396904149236210397630805496688353190722395805417734400
def blackPawnPassiveTable : Nat := 2039822034010063489687619000137344780913372752264467103105334698731747558247594978155657532088194147934226451304074851009240816394972755609596320210938496832361578867520808804796542876612693430957306361912401152073827674607030444673977548436947317452260970221980621507269089642533379770918649152816632940931036195190954537374514609611488156362934325190485653284717774825253564282860768661508921723543393617808393700683450659528977652590432224068072541410359539636758831743705364553467550173320250546229541794850152986632974390984220979453874148731172754264896013609155215648607122679427998230519499898596452216817615140267487802529229398866720349303347498604462107943916485993045825932820503150479667659523002178719464159263302524753587094127976039885608993657014419863503620261154451324457970867266932485482712476527429990032255410865957792800955774868464558706302099699120563404152824811154574696468707629115405042825936512217168920931609543401217776116926207433142292701862966944452803975704639067215383206480863080316876005271728417451387860624510499867093154333237645512004499887912675359612419466992802521814537084339485343868754974187261490571718399958605352353364728969841751694369779995314879810503403653527089782875750400
def whitePawnAttackTable : Nat := 19473520333640844693766330994436405777381462865882702427023720668687200719882857200515382076677738678281688635017816796234516480712896873665785053448087528085041583601915586158693949554496097669976882159541587443243743628631859713660612328521181344871504483826000444588407753126362270488929972876331724246445713926576280899687124350129344644887038778418124721320026238643655825963159467109305103818989456330140438181252428713358436815996764222244847865593838624259516093945136900240838700435453158815443183892840513613527005246791122399944368098954063000579248072304755680571249250639698127663125045025753830411939025853137586168689652585975002130400098196663151100504695247859028551524471827919169596881288427122095343374213356006830233099758386592927524493860309847246152060652557789940919368804706202721872524252122808545098303387217369128116733047967191466567723745385020676420670769188800230701751565889747131152464866604035939621549746367235880273509054187968525780642907449448694536017431339557361030426227238511314942480657168368622082354319988917073598024901531774484992
def blackPawnAttackTable : Nat := 1019911017005031744954388474106547957830446532819824865637424702751423942605091129573414096099401157566464148906908757062213082244518632734656167194404760826181748082332986764997008609077906636798488726508565455113635908187465992144139942889910557682545413143509285036977379050008942752814621682131791807852127629111149814609076672369273230500273862846386327288921516473043069399897098558554481923066943455909276212593105950018176901031799139300841412575577857892114676949413939629208627376770295559966939757376552237703283410498027783649080774598445250419503391810684961257845014960588908371952026213072038162040440122009555204125286978735160250069595193182419578403263365457953683689498712930621147266461958734684180502849953524961539245535064975116407601777786309690666445879910359494034220691617338852649554716904884361064769115345466716359792533114885985444691069097498171275121431694439582622700538199296391035709042425762954797738106090200756900136951514405060571161285007935520234085968037400058725262608367755322912322621843073440065484729043256244034037718414165095381568274100862341602354279611600446063590774642418638979910449312360494948896117343503748034958687486237911218437345967181114975298393971231969370410319872
def whitePawnDoubleTable : Nat := 20927902484106783612841178672923994355614583790413123525266984872956424729283349305996259231753941731095790269390472342552615016215950439882117430120796407994106962507697914812017641047628526127804759793794878372017521533980437278140316527683109541002907849631632867961097089569331627507785610035200
def blackPawnDoubleTable : Nat := 2321424524026017748314739190252900228780396906338424888801932374018008490396180473515181782969290291134973872692398947287249836880235849569758081680763001420751310991096910392326595726322260550554893413568570368362902352654903524299406757997318171676405959187596579981297000695175353976380753300947742578812432676842466183594904250997527391084133533031051980117846992526726451866492187110187611603453028359063620733197202351231330872507888159614731285153026627968340303076055551252636657546347287363458256565742349666793507000784175959449444982493355273776122938115512422640096701521027532056341444373292460114648159602438172539732554649673837591582934539702738888115785745047330863830354303453790154904352600629021812559409568496318911572681678666230138833770639651630867262071639094463645002619656475232648223482503473066509476059157476229809108973299870146317229041823918170965717121759619104648771315883667676306108128368438535911438731557380760666266153600897987094551055402380404607616664202698042887918732328469679215353671727899876426133204065329452684506510131200

/-! ## The packed engine

For kernel-efficient evaluation the engine (move generator, attack oracle,
make/unmake, perft) operates on a `State` packed into a single Nat, laid
out as the twelve 64-bit piece bitboards at fixed offsets, the en-passant
bitboard, the flag bits and the halfmove counter:

  bits   0- 63  white pawns        bits 384-447  black pawns
  bits  64-127  white knights      bits 448-511  black knights
  bits 128-191  white bishops      bits 512-575  black bishops
  bits 192-255  white rooks        bits 576-639  black rooks
  bits 256-319  white queens       bits 640-703  black queens
  bits 320-383  white kings        bits 704-767  black kings
  bits 768-831  en-passant bitboard
  bit  832      active color (0 = white)
  bits 833-836  castle rights (white king, white queen, black king, black queen)
  bits 840-     halfmove counter

`packState` maps the record form to this packed form. -/

/-- Offset of a piece board in the packed state (pieces ordered as
`PieceType::as_array`). -/
def pieceOff (c : Color) (pc : Piece) : Nat :=
  (match c with | .White => 0 | .Black => 384) +
  (match pc with
   | .Pawn => 0 | .Knight => 64 | .Bishop => 128
   | .Rook => 192 | .Queen => 256 | .King => 320)

/-- Extract the 64-bit board at an offset of the packed state. -/
@[macro_inline] def board (p off : Nat) : Nat := (p >>> off) &&& FULL

/-- The occupancy union of the six boards of one color (base offset 0 or
384): `ChessBoardSide::union`. -/
@[macro_inline] def occupancy (p cbase : Nat) : Nat :=
  board p cbase ||| board p (cbase + 64) ||| board p (cbase + 128) |||
  board p (cbase + 192) ||| board p (cbase + 256) ||| board p (cbase + 320)

/-- Base offset of the active side's boards (0 when white to move). -/
@[macro_inline] def activeBase (p : Nat) : Nat := ((p >>> 832) &&& 1) * 384

/-- Base offset of the inactive side's boards. -/
@[macro_inline] def inactiveBase (p : Nat) : Nat := 384 - activeBase p

/-- The en-passant bitboard of a packed state. -/
@[macro_inline] def epBoard (p : Nat) : Nat := (p >>> 768) &&& FULL

/-- The active color of a packed state. -/
def activeColor (p : Nat) : Color := nifz ((p >>> 832) &&& 1) .White .Black

/-- Index of a castle-right bit: 0 white king, 1 white queen, 2 black king,
3 black queen. -/
def castleIdx (c : Color) (s : CSide) : Nat :=
  (match c with | .White => 0 | .Black => 2) + (match s with | .King => 0 | .Queen => 1)

/-- Read a castle-right flag of a packed state. -/
def castleRight (p : Nat) (c : Color) (s : CSide) : Bool :=
  (p >>> (833 + castleIdx c s)) &&& 1 = 1

/-- The halfmove counter of a packed state. -/
def halfmoveOf (p : Nat) : Nat := p >>> 840

/-- Pack a `State` record into the single-Nat engine representation. -/
def packState (s : State) : Nat :=
  s.boards.white.pawn ||| (s.boards.white.knight <<< 64) ||| (s.boards.white.bishop <<< 128) |||
  (s.boards.white.rook <<< 192) ||| (s.boards.white.queen <<< 256) ||| (s.boards.white.king <<< 320) |||
  (s.boards.black.pawn <<< 384) ||| (s.boards.black.knight <<< 448) ||| (s.boards.black.bishop <<< 512) |||
  (s.boards.black.rook <<< 576) ||| (s.boards.black.queen <<< 640) ||| (s.boards.black.king <<< 704) |||
  (s.en_passant <<< 768) |||
  ((match s.flags.active_color with | .White => 0 | .Black => 1) <<< 832) |||
  ((if s.flags.white_king_castle_right then 1 else 0) <<< 833) |||
  ((if s.flags.white_queen_castle_right then 1 else 0) <<< 834) |||
  ((if s.flags.black_king_castle_right then 1 else 0) <<< 835) |||
  ((if s.flags.black_queen_castle_right then 1 else 0) <<< 836) |||
  (s.halfmove <<< 840)

/-! ### Move generation on the packed state

A move list is a Nat holding packed 16-bit moves (every generated move is
nonzero, its to-square differing from its from-square); `mlPush` inserts a
move.  The driver only iterates the list, so the multiset of generated
moves is what matters; the engine accumulates them newest-first. -/

/-- Insert a move into a packed move list. -/
@[macro_inline] def mlPush (ml m : Nat) : Nat := (ml <<< 16) ||| m

/-- The capture loop shared by the knight and king generators: a `Capture`
move from `src` onto every square of `caps` in `pop_first_square` order.
All move-generation loops are fueled recursions over the kernel-friendly
`Nat.rec` (the fuel, always at least 64 at call sites, dominates the bit
count of the popped board). -/
def capsLoop (src : Nat) (fuel caps ml : Nat) : Nat :=
  Nat.rec (motive := fun _ => Nat → Nat → Nat)
    (fun _ ml => ml)
    (fun _ ih caps ml =>
      nifz caps ml (ih (popLsb caps) (mlPush ml (mkMove src (lsbIdx caps) CAPTURE))))
    fuel caps ml

/-- The quiet-move loop shared by the knight and king generators. -/
def quietLoop (src : Nat) (fuel quiets ml : Nat) : Nat :=
  Nat.rec (motive := fun _ => Nat → Nat → Nat)
    (fun _ ml => ml)
    (fun _ ih quiets ml =>
      nifz quiets ml (ih (popLsb quiets) (mlPush ml (mkMove src (lsbIdx quiets) QUIET))))
    fuel quiets ml

/-- The per-knight loop of `MoveGenerator::knight_moves`: captures then
quiets from the knight map minus own pieces. -/
def knightLoop (friendly enemy : Nat) (fuel kns ml : Nat) : Nat :=
  Nat.rec (motive := fun _ => Nat → Nat → Nat)
    (fun _ ml => ml)
    (fun _ ih kns ml =>
      nifz kns ml
        (let kn := lsbIdx kns
         let to_board := mapAt knightTable kn &&& bbNot friendly
         ih (popLsb kns)
           (quietLoop kn 64 (to_board &&& bbNot enemy)
             (capsLoop kn 64 (to_board &&& enemy) ml))))
    fuel kns ml

/-- `MoveGenerator::knight_moves`.  The occupation unions are computed by
`pseudo_legal_moves` and passed in (the source recomputes them, with the
same values, at the top of each generator). -/
def knight_moves (p friendly enemy ml : Nat) : Nat :=
  knightLoop friendly enemy 64 (board p (activeBase p + 64)) ml

/-- `MoveGenerator::king_moves` (the source unwraps the king's square; an
absent king would panic there and yields no moves here). -/
def king_moves (p friendly enemy ml : Nat) : Nat :=
  let kb := board p (activeBase p + 320)
  nifz kb ml
    (let king := lsbIdx kb
     let to_board := mapAt kingTable king &&& bbNot friendly
     quietLoop king 64 (to_board &&& bbNot enemy)
       (capsLoop king 64 (to_board &&& enemy) ml))

/-- Quiet slider moves along a ray in increasing pop order, stopping at the
blocking square (the `while let … && is_none_or(|b| to < b)` loop of
`direction_moves`; the absent blocker is the sentinel 64, above every
square). -/
def quietsAsc (src blk : Nat) (fuel ray ml : Nat) : Nat :=
  Nat.rec (motive := fun _ => Nat → Nat → Nat)
    (fun _ ml => ml)
    (fun _ ih ray ml =>
      nifz ray ml
        (let tgt := lsbIdx ray
         niflt tgt blk (ih (popLsb ray) (mlPush ml (mkMove src tgt QUIET))) ml))
    fuel ray ml

/-- Quiet slider moves along a ray in decreasing pop order, stopping at the
blocking square (64 = absent blocker: every ray square is emitted). -/
def quietsDesc (src blk : Nat) (fuel ray ml : Nat) : Nat :=
  Nat.rec (motive := fun _ => Nat → Nat → Nat)
    (fun _ ml => ml)
    (fun _ ih ray ml =>
      nifz ray ml
        (let tgt := msbIdx ray
         let cont := ih (ray ^^^ sqBB tgt) (mlPush ml (mkMove src tgt QUIET))
         nifeq blk 64 cont (niflt blk tgt cont ml)))
    fuel ray ml

/-- `MoveGenerator::direction_moves` for one ray: take the first friendly
and enemy blockers (LSB scan on increasing rays, MSB on decreasing), emit
one capture when the enemy blocker is strictly nearer than the friendly
one (or the only blocker), then the quiet moves short of the nearer
blocker.  The Rust `Option<Square>` blockers are the sentinel 64 when
absent. -/
def direction_moves (friendly enemy : Nat) (src ray : Nat) (inc : Bool) (ml : Nat) : Nat :=
  let fb := friendly &&& ray
  let eb := enemy &&& ray
  let fsq := nifz fb 64 (cond inc (lsbIdx fb) (msbIdx fb))
  let esq := nifz eb 64 (cond inc (lsbIdx eb) (msbIdx eb))
  let enemyNearer :=
    nifz eb 0 (nifz fb 1 (cond inc (niflt esq fsq 1 0) (niflt fsq esq 1 0)))
  let blockSq := nifz enemyNearer fsq esq
  let ml2 := nifz enemyNearer ml (mlPush ml (mkMove src esq CAPTURE))
  cond inc (quietsAsc src blockSq 64 ray ml2) (quietsDesc src blockSq 64 ray ml2)

/-- The four diagonal rays with their directions (`MoveMaps::diagonals`):
NE and NW increasing, SW and SE decreasing. -/
def slideDiagonals (friendly enemy src ml : Nat) : Nat :=
  direction_moves friendly enemy src (mapAt seDiagTable src) false
    (direction_moves friendly enemy src (mapAt swDiagTable src) false
      (direction_moves friendly enemy src (mapAt nwDiagTable src) true
        (direction_moves friendly enemy src (mapAt neDiagTable src) true ml)))

/-- The four orthogonal rays with their directions (`MoveMaps::directions`):
E and N increasing, W and S decreasing. -/
def slideDirections (friendly enemy src ml : Nat) : Nat :=
  direction_moves friendly enemy src (mapAt sFileTable src) false
    (direction_moves friendly enemy src (mapAt wRankTable src) false
      (direction_moves friendly enemy src (mapAt nFileTable src) true
        (direction_moves friendly enemy src (mapAt eRankTable src) true ml)))

/-- `MoveGenerator::diagonal_moves`: every piece of the given board slides
along the four diagonal rays. -/
def diagonal_moves (friendly enemy : Nat) (fuel pieces ml : Nat) : Nat :=
  Nat.rec (motive := fun _ => Nat → Nat → Nat)
    (fun _ ml => ml)
    (fun _ ih pieces ml =>
      nifz pieces ml
        (ih (popLsb pieces) (slideDiagonals friendly enemy (lsbIdx pieces) ml)))
    fuel pieces ml

/-- `MoveGenerator::rank_file_moves`. -/
def rank_file_moves (friendly enemy : Nat) (fuel pieces ml : Nat) : Nat :=
  Nat.rec (motive := fun _ => Nat → Nat → Nat)
    (fun _ ml => ml)
    (fun _ ih pieces ml =>
      nifz pieces ml
        (ih (popLsb pieces) (slideDirections friendly enemy (lsbIdx pieces) ml)))
    fuel pieces ml

/-- The capture-move loop of `MoveGenerator::pawn_moves`: promotion
captures (queen, rook, bishop, knight), en-passant, or plain captures
(`promo` is the per-pawn `will_promote` flag as 0 or 1). -/
def pawnAttackLoop (src promo ep : Nat) (fuel attacks ml : Nat) : Nat :=
  Nat.rec (motive := fun _ => Nat → Nat → Nat)
    (fun _ ml => ml)
    (fun _ ih attacks ml =>
      nifz attacks ml
        (let tgt := lsbIdx attacks
         let ml2 :=
           nifz promo
             (nifz ep (mlPush ml (mkMove src tgt CAPTURE))
               (nifeq (lsbIdx ep) tgt (mlPush ml (mkMove src tgt EN_PASSANT))
                 (mlPush ml (mkMove src tgt CAPTURE))))
             (mlPush (mlPush (mlPush (mlPush ml
               (mkMove src tgt QUEEN_PROMOTION_CAPTURE))
               (mkMove src tgt ROOK_PROMOTION_CAPTURE))
               (mkMove src tgt BISHOP_PROMOTION_CAPTURE))
               (mkMove src tgt KNIGHT_PROMOTION_CAPTURE))
         ih (popLsb attacks) ml2))
    fuel attacks ml

/-- The per-pawn body of `MoveGenerator::pawn_moves`: single push (or the
four promotion variants), double push (only when the single push is also
free), then the diagonal captures onto enemy occupancy or the en-passant
square.  `cw` is the active-color bit (0 = white), `eo` the union of the
enemy occupation and the en-passant board. -/
def pawnLoop (cw unoccupied eo ep : Nat) (fuel pawns ml : Nat) : Nat :=
  Nat.rec (motive := fun _ => Nat → Nat → Nat)
    (fun _ ml => ml)
    (fun _ ih pawns ml =>
      nifz pawns ml
        (let src := lsbIdx pawns
         let will_promote := nifz cw (nifeq (src / 8) 6 1 0) (nifeq (src / 8) 1 1 0)
         let passive_board :=
           mapAt (nifz cw whitePawnPassiveTable blackPawnPassiveTable) src &&& unoccupied
         let double_board :=
           mapAt (nifz cw whitePawnDoubleTable blackPawnDoubleTable) src &&& unoccupied &&&
           (nifz cw ((passive_board <<< 8) &&& FULL) (passive_board >>> 8))
         let attack_board := mapAt (nifz cw whitePawnAttackTable blackPawnAttackTable) src &&& eo
         let ml2 :=
           nifz passive_board ml
             (let tgt := lsbIdx passive_board
              nifz will_promote
                (mlPush ml (mkMove src tgt QUIET))
                (mlPush (mlPush (mlPush (mlPush ml
                  (mkMove src tgt QUEEN_PROMOTION))
                  (mkMove src tgt ROOK_PROMOTION))
                  (mkMove src tgt BISHOP_PROMOTION))
                  (mkMove src tgt KNIGHT_PROMOTION)))
         let ml3 :=
           nifz double_board ml2 (mlPush ml2 (mkMove src (lsbIdx double_board) DOUBLE_PAWN_PUSH))
         ih (popLsb pawns) (pawnAttackLoop src will_promote ep 64 attack_board ml3)))
    fuel pawns ml

/-- `MoveGenerator::pawn_moves`. -/
def pawn_moves (p friendly enemy ml : Nat) : Nat :=
  let cw := (p >>> 832) &&& 1
  let unoccupied := bbNot (friendly ||| enemy)
  let ep := epBoard p
  pawnLoop cw unoccupied (enemy ||| ep) ep 64 (board p (activeBase p)) ml

/-! ### The square-attacked oracle -/

/-- `capture_in_increasing_direction`: no blocker on the ray but a target,
or the first target (LSB scan) strictly nearer than the first blocker. -/
def capture_in_increasing_direction (ray targets blocking : Nat) : Bool :=
  let tb := ray &&& blocking
  let tt := ray &&& targets
  nifz tt false (nifz tb true (niflt (lsbIdx tt) (lsbIdx tb) true false))

/-- `capture_in_decreasing_direction` (MSB scan). -/
def capture_in_decreasing_direction (ray targets blocking : Nat) : Bool :=
  let tb := ray &&& blocking
  let tt := ray &&& targets
  nifz tt false (nifz tb true (niflt (msbIdx tb) (msbIdx tt) true false))

/-- `State::is_square_attacked`: could a piece of `atk` capture onto
`square` given the current occupancy?  Diagonal scans for bishops/queens
(other attacker pieces and all defenders block), orthogonal scans for
rooks/queens, then the pawn map of the defender's color at the square, the
knight map and the king map. -/
def is_square_attacked (p square : Nat) (atk : Color) : Bool :=
  let abase := Color.casesOn (motive := fun _ => Nat) atk 0 384
  let dbase := 384 - abase
  let apawn := board p abase
  let aknight := board p (abase + 64)
  let abishop := board p (abase + 128)
  let arook := board p (abase + 192)
  let aqueen := board p (abase + 256)
  let aking := board p (abase + 320)
  let defending_occupation := occupancy p dbase
  let blocking_bqr := defending_occupation ||| apawn ||| aknight ||| aking
  let blocking_bq := blocking_bqr ||| arook
  let blocking_rq := blocking_bqr ||| abishop
  let abq := abishop ||| aqueen
  let arq := arook ||| aqueen
  capture_in_increasing_direction (mapAt neDiagTable square) abq blocking_bq ||
  capture_in_increasing_direction (mapAt nwDiagTable square) abq blocking_bq ||
  capture_in_decreasing_direction (mapAt swDiagTable square) abq blocking_bq ||
  capture_in_decreasing_direction (mapAt seDiagTable square) abq blocking_bq ||
  capture_in_increasing_direction (mapAt eRankTable square) arq blocking_rq ||
  capture_in_increasing_direction (mapAt nFileTable square) arq blocking_rq ||
  capture_in_decreasing_direction (mapAt wRankTable square) arq blocking_rq ||
  capture_in_decreasing_direction (mapAt sFileTable square) arq blocking_rq ||
  nifz (apawn &&& mapAt (Color.casesOn (motive := fun _ => Nat) atk
    blackPawnAttackTable whitePawnAttackTable) square) false true ||
  nifz (mapAt knightTable square &&& aknight) false true ||
  nifz (mapAt kingTable square &&& aking) false true

/-- Mirror a square's rank (`Square::mirror`). -/
def sqMirror (sq : Nat) : Nat := (7 - sq / 8) * 8 + sq % 8

/-- `SquareFinder::adapt_to_color`: white keeps the square, black mirrors. -/
def adaptToColor (c : Color) (sq : Nat) : Nat :=
  match c with
  | .White => sq
  | .Black => sqMirror sq

/-- `SquareFinder::source` for the king (rank 0, file 4). -/
def kingSource (c : Color) : Nat := adaptToColor c 4

/-- `SquareFinder::castle_king_target`. -/
def castle_king_target (c : Color) : CSide → Nat
  | .King => adaptToColor c 6
  | .Queen => adaptToColor c 2

/-- `SquareFinder::castle_rook_target`. -/
def castle_rook_target (c : Color) : CSide → Nat
  | .King => adaptToColor c 5
  | .Queen => adaptToColor c 3

/-- `SquareFinder::castle_rook_source`. -/
def castle_rook_source (c : Color) : CSide → Nat
  | .King => adaptToColor c 7
  | .Queen => adaptToColor c 0

/-- `SquareFinder::castle_check`: the three squares the king moves
through. -/
def castle_check (c : Color) : CSide → List Nat
  | .King => [adaptToColor c 4, adaptToColor c 5, adaptToColor c 6]
  | .Queen => [adaptToColor c 4, adaptToColor c 3, adaptToColor c 2]

/-- `SquareFinder::castle_empty`: the squares that must be empty when
castling.  The source lists the file-5 square TWICE for the king side
(`[square!(self,0,5), square!(self,0,5), square!(self,0,6)]`); the union is
built exactly as the source builds it. -/
def castle_empty (c : Color) (side : CSide) : Nat :=
  match side with
  | .King => 0 ||| sqBB (adaptToColor c 5) ||| sqBB (adaptToColor c 5) ||| sqBB (adaptToColor c 6)
  | .Queen => 0 ||| sqBB (adaptToColor c 3) ||| sqBB (adaptToColor c 2) ||| sqBB (adaptToColor c 1)

/-- `SquareFinder::en_passant_capture` (rank 4 of the mover, given file). -/
def en_passant_capture (c : Color) (file : Nat) : Nat := adaptToColor c (4 * 8 + file)

/-- `SquareFinder::en_passant_marker` (rank 2 of the mover, given file). -/
def en_passant_marker (c : Color) (file : Nat) : Nat := adaptToColor c (2 * 8 + file)

/-- `MoveCode::from_castle`. -/
def codeFromCastle : CSide → Nat
  | .King => KING_CASTLE
  | .Queen => QUEEN_CASTLE

/-- One side of `MoveGenerator::castle_moves`: the castling move is emitted
iff the right is held, the between squares are empty and none of the three
king-path squares is attacked by the enemy. -/
def castleSideMoves (p : Nat) (c : Color) (side : CSide) (ml : Nat) : Nat :=
  let occupation := occupancy p 0 ||| occupancy p 384
  nifz ((p >>> (833 + castleIdx c side)) &&& 1) ml
    (nifz (occupation &&& castle_empty c side)
      (cond ((castle_check c side).all (fun sq => !is_square_attacked p sq c.not))
        (mlPush ml (mkMove (kingSource c) (castle_king_target c side) (codeFromCastle side)))
        ml)
      ml)

/-- `MoveGenerator::castle_moves`: both sides in `CastleSide::as_array`
order. -/
def castle_moves (p ml : Nat) : Nat :=
  let c := activeColor p
  castleSideMoves p c .Queen (castleSideMoves p c .King ml)

/-- `MoveGenerator::pseudo_legal_moves`: the eight generators in source
order (knights, king, bishop diagonals, queen diagonals, rook ranks/files,
queen ranks/files, pawns, castles).  The two occupation unions are
computed once and shared (each source generator recomputes the same
values). -/
def pseudo_legal_moves (p : Nat) : Nat :=
  let friendly := occupancy p (activeBase p)
  let enemy := occupancy p (inactiveBase p)
  castle_moves p
    (pawn_moves p friendly enemy
      (rank_file_moves friendly enemy 64 (board p (activeBase p + 256))
        (rank_file_moves friendly enemy 64 (board p (activeBase p + 192))
          (diagonal_moves friendly enemy 64 (board p (activeBase p + 256))
            (diagonal_moves friendly enemy 64 (board p (activeBase p + 128))
              (king_moves p friendly enemy
                (knight_moves p friendly enemy 0)))))))

/-- `State::was_move_legal`: after a make, the king of the side that just
moved (now inactive) is not attacked by the side to move.  The source
unwraps the king square; an absent king is mapped to `true` and never
arises in the states this development evaluates. -/
def was_move_legal (p : Nat) : Bool :=
  let kb := board p (inactiveBase p + 320)
  nifz kb true (!is_square_attacked p (lsbIdx kb) (activeColor p))

/-- `State::is_check`, exactly as the source writes it: the NEGATION of
"the active king is attacked by the opposing color" (note the `!` in
move_generator.rs lines 240-245, contradicting its own doc comment).  An
absent king (an unwrap panic in the source) is mapped to `true`. -/
def is_check (p : Nat) : Bool :=
  let kb := board p (activeBase p + 320)
  nifz kb true (!is_square_attacked p (lsbIdx kb) (activeColor p).not)

/-! ### Make / unmake (src/chess_core/src/position.rs)

`Position<H: Hasher>` couples a `HashedState` (state plus incrementally
maintained hash) with a stack of `IrreversibleInfo`; every state mutation
goes through a `HashedState` method that also feeds the hasher.  The
embedding passes the hasher value and the irreversible info explicitly:
`make` returns them, `unmake` consumes the info. -/

/-- The `Hasher` trait operations (`init` is separate). -/
structure HasherOps (α : Type) where
  consume_piece : α → Color → Piece → Nat → α
  consume_castle : α → Color → CSide → α
  consume_color : α → α
  consume_en_passant : α → Nat → α

/-- `NoopHasher`: every operation does nothing. -/
def noopOps : HasherOps Unit where
  consume_piece := fun h _ _ _ => h
  consume_castle := fun h _ _ => h
  consume_color := fun h => h
  consume_en_passant := fun h _ => h

/-- Clear one bit of the packed word (no-op when the bit is absent: the
`BitBoard::unset` semantics `b &= !(1 << sq)`). -/
@[macro_inline] def clearBit (p bit : Nat) : Nat := p ^^^ (p &&& bit)

/-- `HashedState::remove_piece`. -/
def remove_piece (H : HasherOps α) (p : Nat) (h : α) (sq : Nat) (pc : Piece) (c : Color) :
    Nat × α :=
  (clearBit p (1 <<< (pieceOff c pc + sq)), H.consume_piece h c pc sq)

/-- `HashedState::add_piece`. -/
def add_piece (H : HasherOps α) (p : Nat) (h : α) (sq : Nat) (pc : Piece) (c : Color) :
    Nat × α :=
  (p ||| (1 <<< (pieceOff c pc + sq)), H.consume_piece h c pc sq)

/-- `HashedState::move_piece` (`BitBoard::move` is unset-from then set-to). -/
def move_piece (H : HasherOps α) (p : Nat) (h : α) (src tgt : Nat) (pc : Piece) (c : Color) :
    Nat × α :=
  let off := pieceOff c pc
  (clearBit p (1 <<< (off + src)) ||| (1 <<< (off + tgt)),
   H.consume_piece (H.consume_piece h c pc src) c pc tgt)

/-- `HashedState::set_castle_right`: flips the flag and hashes only when
the value changes. -/
def set_castle_right (H : HasherOps α) (p : Nat) (h : α) (c : Color) (s : CSide)
    (v : Bool) : Nat × α :=
  if castleRight p c s ≠ v then
    (p ^^^ (1 <<< (833 + castleIdx c s)), H.consume_castle h c s)
  else (p, h)

/-- `HashedState::toggle_color`. -/
def toggle_color (H : HasherOps α) (p : Nat) (h : α) : Nat × α :=
  (p ^^^ (1 <<< 832), H.consume_color h)

/-- `HashedState::remove_en_passant`: pops the first en-passant bit, if
any, and hashes its file. -/
def remove_en_passant (H : HasherOps α) (p : Nat) (h : α) : Nat × α :=
  match epBoard p with
  | 0 => (p, h)
  | e+1 =>
    let sq := lsbIdx (e+1)
    (p ^^^ (1 <<< (768 + sq)), H.consume_en_passant h sq)

/-- `HashedState::add_en_passant`. -/
def add_en_passant (H : HasherOps α) (p : Nat) (h : α) (sq : Nat) : Nat × α :=
  (p ||| (1 <<< (768 + sq)), H.consume_en_passant h sq)

/-- The piece of a find index (`PieceType::as_array` order). -/
def pieceOfIdx (i : Nat) : Piece :=
  if i = 0 then .Pawn else if i = 1 then .Knight else if i = 2 then .Bishop
  else if i = 3 then .Rook else if i = 4 then .Queen else .King

/-- The `find` over `PieceType::as_array` locating the piece on a square of
one side's boards; 6 when no board holds the square (`None`). -/
def findPieceIdx (p cbase sq : Nat) : Nat :=
  if board p cbase &&& sqBB sq != 0 then 0
  else if board p (cbase + 64) &&& sqBB sq != 0 then 1
  else if board p (cbase + 128) &&& sqBB sq != 0 then 2
  else if board p (cbase + 192) &&& sqBB sq != 0 then 3
  else if board p (cbase + 256) &&& sqBB sq != 0 then 4
  else if board p (cbase + 320) &&& sqBB sq != 0 then 5
  else 6

/-- `IrreversibleInfo`, packed: en-passant bitboard (bits 0-63), the five
state flags (bits 64-68 as stored in the state), captured-piece find index
(bits 72-75, 6 = none), halfmove (bits 80-). -/
def infoFromState (p capturedIdx : Nat) : Nat :=
  epBoard p ||| (((p >>> 832) &&& 0x1F) <<< 64) ||| (capturedIdx <<< 72) |||
  (halfmoveOf p <<< 80)

/-- `Position::castle`: move king and rook to their castled squares and
clear both of the mover's castling rights. -/
def castleApply (H : HasherOps α) (p : Nat) (h : α) (side : CSide) : Nat × α :=
  let c := activeColor p
  let r1 := move_piece H p h (kingSource c) (castle_king_target c side) .King c
  let r2 := move_piece H r1.1 r1.2 (castle_rook_source c side) (castle_rook_target c side) .Rook c
  let r3 := set_castle_right H r2.1 r2.2 c .King false
  set_castle_right H r3.1 r3.2 c .Queen false

/-- `Position::uncastle` (castling rights are restored separately). -/
def uncastleApply (H : HasherOps α) (p : Nat) (h : α) (side : CSide) : Nat × α :=
  let c := activeColor p
  let r1 := move_piece H p h (castle_king_target c side) (kingSource c) .King c
  move_piece H r1.1 r1.2 (castle_rook_target c side) (castle_rook_source c side) .Rook c

/-- `Position::make`, step for step: identify the moved and captured
pieces, snapshot the irreversible info, discard en passant, apply the
castle or the ordinary move (clearing castling rights for king moves and
for rook moves leaving `castle_rook_target` — the square the source
actually compares against), remove the en-passant victim or the captured
piece, set the new en-passant marker on a double push, swap in the promoted
piece, toggle the color and bump the halfmove counter.  Returns the new
state, the new hasher value and the pushed `IrreversibleInfo`. -/
def Position.make (H : HasherOps α) (p : Nat) (h : α) (m : Nat) : Nat × α × Nat :=
  let c := activeColor p
  let src := mFrom m
  let tgt := mTo m
  let code := mCode m
  let movedIdx := findPieceIdx p (activeBase p) src
  let capturedIdx :=
    if code = EN_PASSANT then 0
    else if codeIsCapture code then findPieceIdx p (inactiveBase p) tgt
    else 6
  let info := infoFromState p capturedIdx
  let r1 := remove_en_passant H p h
  let r2 :=
    if code = KING_CASTLE then castleApply H r1.1 r1.2 .King
    else if code = QUEEN_CASTLE then castleApply H r1.1 r1.2 .Queen
    else
      let moved := pieceOfIdx movedIdx
      let ra := move_piece H r1.1 r1.2 src tgt moved c
      let rb :=
        if movedIdx = 5 then
          let x := set_castle_right H ra.1 ra.2 c .King false
          set_castle_right H x.1 x.2 c .Queen false
        else ra
      let rc :=
        if movedIdx = 3 then
          let x :=
            if src = castle_rook_target c .King then
              set_castle_right H rb.1 rb.2 c .King false
            else rb
          if src = castle_rook_target c .Queen then
            set_castle_right H x.1 x.2 c .Queen false
          else x
        else rb
      if code = EN_PASSANT then
        remove_piece H rc.1 rc.2 (en_passant_capture c (tgt % 8)) .Pawn c.not
      else if capturedIdx ≠ 6 then
        remove_piece H rc.1 rc.2 tgt (pieceOfIdx capturedIdx) c.not
      else rc
  let r3 :=
    if code = DOUBLE_PAWN_PUSH then
      add_en_passant H r2.1 r2.2 (en_passant_marker c (src % 8))
    else r2
  let r4 :=
    match codeAsPromotion code with
    | some promo =>
      let x := remove_piece H r3.1 r3.2 tgt (pieceOfIdx movedIdx) c
      add_piece H x.1 x.2 tgt promo c
    | none => r3
  let r5 := toggle_color H r4.1 r4.2
  (r5.1 + (1 <<< 840), r5.2, info)

/-- `Position::restore_castle_rights`: each of the four rights is restored
through the setter (so the hash stays in sync), in
`Color × CastleSide` cartesian order. -/
def restore_castle_rights (H : HasherOps α) (p : Nat) (h : α) (flagBits : Nat) : Nat × α :=
  let r1 := set_castle_right H p h .White .King ((flagBits >>> 1) &&& 1 = 1)
  let r2 := set_castle_right H r1.1 r1.2 .White .Queen ((flagBits >>> 2) &&& 1 = 1)
  let r3 := set_castle_right H r2.1 r2.2 .Black .King ((flagBits >>> 3) &&& 1 = 1)
  set_castle_right H r3.1 r3.2 .Black .Queen ((flagBits >>> 4) &&& 1 = 1)

/-- `Position::unmake`, step for step: toggle the color back, restore the
castling rights and the en-passant bitboard from the popped info, identify
the moved piece at the to-square (a pawn for promotions, which are first
swapped back), undo the castle or move the piece back and re-materialize
the captured piece (the en-passant victim on the mover's fourth rank),
decrement the halfmove counter. -/
def Position.unmake (H : HasherOps α) (p : Nat) (h : α) (m : Nat) (info : Nat) : Nat × α :=
  let r0 := toggle_color H p h
  let c := activeColor r0.1
  let flagBits := (info >>> 64) &&& 0x1F
  let r1 := restore_castle_rights H r0.1 r0.2 flagBits
  let r2 := remove_en_passant H r1.1 r1.2
  let infoEp := info &&& FULL
  let r3 :=
    match infoEp with
    | 0 => r2
    | e+1 => add_en_passant H r2.1 r2.2 (lsbIdx (e+1))
  let src := mFrom m
  let tgt := mTo m
  let code := mCode m
  let movedIdx :=
    if (codeAsPromotion code).isSome then 0
    else findPieceIdx r3.1 (activeBase r3.1) tgt
  let r4 :=
    match codeAsPromotion code with
    | some promo =>
      let x := remove_piece H r3.1 r3.2 tgt promo c
      add_piece H x.1 x.2 tgt .Pawn c
    | none => r3
  let r5 :=
    if code = KING_CASTLE then uncastleApply H r4.1 r4.2 .King
    else if code = QUEEN_CASTLE then uncastleApply H r4.1 r4.2 .Queen
    else
      let ra := move_piece H r4.1 r4.2 tgt src (pieceOfIdx movedIdx) c
      if code = EN_PASSANT then
        add_piece H ra.1 ra.2 (en_passant_capture c (tgt % 8)) .Pawn c.not
      else
        let capturedIdx := (info >>> 72) &&& 0xF
        if capturedIdx ≠ 6 then
          add_piece H ra.1 ra.2 tgt (pieceOfIdx capturedIdx) c.not
        else ra
  (r5.1 - (1 <<< 840), r5.2)

/-! ### Perft (src/chess_core/chess_perftree/src/main.rs)

The perft driver instantiates `Position<NoopHasher>`: `recursive_perft`
makes each pseudo-legal move, counts or recurses when `was_move_legal`
holds, and unmakes (the pure embedding simply keeps the parent state). -/

/-- The `find` over `PieceType::as_array` locating the piece on a square of
one side's boards of the packed state; 6 when no board holds the square
(`None`). -/
def findPieceIdxAt (p cbase sq : Nat) : Nat :=
  let bit := 1 <<< sq
  nifz (board p cbase &&& bit)
    (nifz (board p (cbase + 64) &&& bit)
      (nifz (board p (cbase + 128) &&& bit)
        (nifz (board p (cbase + 192) &&& bit)
          (nifz (board p (cbase + 256) &&& bit)
            (nifz (board p (cbase + 320) &&& bit) 6 5) 4) 3) 2) 1) 0

/-- `Position::castle` on the packed state with the `NoopHasher`: move the
king and rook to their castled squares and clear both of the mover's
rights (`side` 0 = king side, 1 = queen side; `cw` the active-color bit,
and `sq ^^^ 56` is `Square::mirror`). -/
def castleApplyP (p cw side : Nat) : Nat :=
  let mir := cw * 56
  let kOff := cw * 384 + 320
  let rOff := cw * 384 + 192
  let kSrc := 4 ^^^ mir
  let kTgt := (nifz side 6 2) ^^^ mir
  let rSrc := (nifz side 7 0) ^^^ mir
  let rTgt := (nifz side 5 3) ^^^ mir
  let p1 := (p ^^^ (p &&& (1 <<< (kOff + kSrc)))) ||| (1 <<< (kOff + kTgt))
  let p2 := (p1 ^^^ (p1 &&& (1 <<< (rOff + rSrc)))) ||| (1 <<< (rOff + rTgt))
  p2 ^^^ (p2 &&& (3 <<< (833 + 2 * cw)))

/-- `Position::make` in the `NoopHasher` instantiation of the perft driver
(src/chess_core/chess_perftree wires `Position<NoopHasher>`): the hasher
operations are no-ops and the pure driver never reads the pushed
`IrreversibleInfo`, so the translation keeps only the packed state.  The
steps mirror `Position::make` (src/chess_core/src/position.rs lines
79-155) one for one: identify the moved and captured pieces, discard en
passant, apply the castle or the ordinary move (king moves clear both of
the mover's rights; rook moves clear a right when leaving
`castle_rook_target` — the square the source actually compares against),
remove the en-passant victim or the captured piece, set the en-passant
marker on a double push, swap in the promoted piece
(`((code - 6) &&& 3) + 1` is the piece index of `MoveCode::as_promotion`),
toggle the color and bump the halfmove counter. -/
def makeState (p m : Nat) : Nat :=
  let cw := (p >>> 832) &&& 1
  let c := activeColor p
  let src := mFrom m
  let tgt := mTo m
  let code := mCode m
  let abase := cw * 384
  let ibase := 384 - abase
  let movedIdx := findPieceIdxAt p abase src
  let capturedIdx :=
    nifeq code EN_PASSANT 0
      (nifeq code CAPTURE (findPieceIdxAt p ibase tgt)
        (niflt code KNIGHT_PROMOTION_CAPTURE 6 (findPieceIdxAt p ibase tgt)))
  let ep := (p >>> 768) &&& FULL
  let p1 := nifz ep p (p ^^^ ((ep ^^^ (ep &&& (ep - 1))) <<< 768))
  let p2 :=
    nifeq code KING_CASTLE (castleApplyP p1 cw 0)
      (nifeq code QUEEN_CASTLE (castleApplyP p1 cw 1)
        (let offM := abase + movedIdx * 64
         let pa := (p1 ^^^ (p1 &&& (1 <<< (offM + src)))) ||| (1 <<< (offM + tgt))
         let pb := nifeq movedIdx 5 (pa ^^^ (pa &&& (3 <<< (833 + 2 * cw)))) pa
         let pc :=
           nifeq movedIdx 3
             (let x := nifeq src (castle_rook_target c .King)
                (pb ^^^ (pb &&& (1 <<< (833 + 2 * cw)))) pb
              nifeq src (castle_rook_target c .Queen)
                (x ^^^ (x &&& (1 <<< (834 + 2 * cw)))) x)
             pb
         nifeq code EN_PASSANT
           (pc ^^^ (pc &&& (1 <<< (ibase + en_passant_capture c (tgt % 8)))))
           (nifeq capturedIdx 6 pc
             (pc ^^^ (pc &&& (1 <<< (ibase + capturedIdx * 64 + tgt)))))))
  let p3 :=
    nifeq code DOUBLE_PAWN_PUSH (p2 ||| (1 <<< (768 + en_passant_marker c (src % 8)))) p2
  let p4 :=
    niflt code KNIGHT_PROMOTION p3
      (let pr := p3 ^^^ (p3 &&& (1 <<< (abase + movedIdx * 64 + tgt)))
       pr ||| (1 <<< (abase + (((code - 6) &&& 3) + 1) * 64 + tgt)))
  (p4 ^^^ (1 <<< 832)) + (1 <<< 840)

/-- The move loop of `recursive_perft`: iterate the packed move list; for
each move: make, test `was_move_legal`, count or recurse (`recurse` is the
evaluation of the next-lower depth), unmake (the pure embedding keeps the
parent state). -/
def perftMoves (recurse : Nat → Nat) (p : Nat) (fuel ml acc : Nat) : Nat :=
  Nat.rec (motive := fun _ => Nat → Nat → Nat)
    (fun _ acc => acc)
    (fun _ ih ml acc =>
      nifz ml acc
        (let p2 := makeState p (ml &&& 0xFFFF)
         ih (ml >>> 16) (cond (was_move_legal p2) (acc + recurse p2) acc)))
    fuel ml acc

/-- `recursive_perft`: leaves of the legal-move tree at the given depth
(recursion on the depth written with `Nat.rec` so that evaluation stays in
the kernel's structural fragment). -/
def recursive_perft (d p : Nat) : Nat :=
  Nat.rec (motive := fun _ => Nat → Nat)
    (fun _ => 1)
    (fun _ ih q => perftMoves ih q 256 (pseudo_legal_moves q) 0)
    d p

/-- The first piece of `PieceType::as_array` whose board of this side
contains the square (the scan order of `ChessBoard::to_fen` and of the
make/unmake piece identification). -/
def findPieceAt (side : ChessBoardSide) (square : Nat) : Option Piece :=
  pieceArray.find? (fun p => side.get p &&& sqBB square != 0)

/-! ## Square parsing (TryFrom<&str> for Square, src/chess_core/src/square.rs)

The source matches `[file @ A..=H, rank @ ZERO..EIGHT]` on the byte slice.
`A..=H` is an inclusive range; `ZERO..EIGHT` is an EXCLUSIVE range, so the
byte '8' is NOT matched.  On a match it computes `rank - ZERO - 1` in u8
arithmetic, which underflows when the rank byte is '0'. -/

/-- Outcome of `Square::try_from(&str)`: `ok` for `Ok`, `err` for `Err`, and
`panicked` for the u8 underflow `rank - ZERO - 1` when the rank byte is '0'
(a panic under debug assertions; in release it would wrap and produce an
out-of-range square, violating the Square bounds invariant either way). -/
inductive SquareParse where
  | ok (sq : Nat)
  | err
  | panicked
deriving DecidableEq, Repr

/-- `Square::try_from(&str)`, byte for byte. -/
def square_try_from (cs : List Char) : SquareParse :=
  match cs with
  | [file, rank] =>
    if 97 ≤ file.toNat && file.toNat ≤ 104 && 48 ≤ rank.toNat && rank.toNat < 56 then
      if rank.toNat = 48 then .panicked
      else .ok ((rank.toNat - 48 - 1) * 8 + (file.toNat - 97))
    else .err
  | _ => .err

/-- The `Display` of a square: file letter then rank digit. -/
def squareToChars (sq : Nat) : List Char :=
  [Char.ofNat (sq % 8 + 97), Char.ofNat (sq / 8 + 1 + 48)]

/-! ## FEN (src/chess_core/src/state/mod.rs, chess_board.rs, flags.rs)

Strings are embedded as `List Char`.  Every `unwrap`/`panic!` on malformed
input is modelled by `none`. -/

/-- Join char lists with a separator. -/
def joinSep (sep : List Char) : List (List Char) → List Char
  | [] => []
  | [l] => l
  | l :: rest => l ++ sep ++ joinSep sep rest

/-- Split a char list on a separator (for `split('/')`). -/
def splitOnChar (sep : Char) (cs : List Char) : List (List Char) :=
  match cs with
  | [] => [[]]
  | c :: rest =>
    let r := splitOnChar sep rest
    if c = sep then [] :: r
    else
      match r with
      | h :: t => (c :: h) :: t
      | [] => [[c]]

/-- Whitespace test for `split_whitespace`. -/
def isWS (c : Char) : Bool := c = ' ' || c = '\t' || c = '\n' || c = '\r'

/-- `split_whitespace`: maximal runs of non-whitespace. -/
def splitWS (cs : List Char) : List (List Char) :=
  ((splitOnChar ' ' (cs.map (fun c => if isWS c then ' ' else c))).filter
    (fun l => !l.isEmpty))

/-- Piece letter for FEN emission (`From<PieceType> for char`, uppercased
white). -/
def pieceChar : Piece → Char
  | .Pawn => 'P'
  | .Knight => 'N'
  | .Bishop => 'B'
  | .Rook => 'R'
  | .Queen => 'Q'
  | .King => 'K'

/-- Lowercase piece letter (black). -/
def pieceCharLower : Piece → Char
  | .Pawn => 'p'
  | .Knight => 'n'
  | .Bishop => 'b'
  | .Rook => 'r'
  | .Queen => 'q'
  | .King => 'k'

/-- Piece from a lowercased FEN letter (the match in
`ChessBoard::from_fen`; unknown letters panic → `none`). -/
def pieceOfChar (c : Char) : Option Piece :=
  if c = 'p' then some .Pawn
  else if c = 'n' then some .Knight
  else if c = 'b' then some .Bishop
  else if c = 'r' then some .Rook
  else if c = 'q' then some .Queen
  else if c = 'k' then some .King
  else none

/-- Parse one rank line of the placement field onto the board.  `file` may
run past 7 on malformed input; the source's `Square::new_unchecked` would
then break the square invariant (debug panic), modelled by `none`. -/
def fenLineOnto (rank : Nat) : List Char → Nat → ChessBoard → Option ChessBoard
  | [], _, b => some b
  | c :: rest, file, b =>
    if c.isDigit then
      fenLineOnto rank rest (file + (c.toNat - 48)) b
    else
      if file ≥ 8 ∨ rank ≥ 8 then none
      else
        match pieceOfChar c.toLower with
        | none => none
        | some p =>
          let color : Color := if c.isUpper then .White else .Black
          let side := b.get color
          fenLineOnto rank rest (file + 1)
            (b.setC color (side.set p (side.get p ||| sqBB (rank * 8 + file))))

/-- `ChessBoard::from_fen`: split on '/', reverse, zip with ranks 0… -/
def chess_board_from_fen (cs : List Char) : Option ChessBoard :=
  let lines := (splitOnChar '/' cs).reverse
  (lines.enum.foldl (fun acc lr =>
    match acc with
    | none => none
    | some b => fenLineOnto lr.1 lr.2 0 b) (some ChessBoard.emptyB))

/-- `StateFlags::from_fen`: start from the defaults (white to move, all four
rights) and clear the rights whose letters are absent. -/
def flags_from_fen (activeChar : Char) (castling : List Char) : Option StateFlags :=
  match (if activeChar = 'w' then some Color.White
         else if activeChar = 'b' then some Color.Black else none) with
  | none => none
  | some c =>
    some { active_color := c,
           white_king_castle_right := castling.contains 'K',
           white_queen_castle_right := castling.contains 'Q',
           black_king_castle_right := castling.contains 'k',
           black_queen_castle_right := castling.contains 'q' }

/-- Parse a decimal u8 (`halfmove.parse::<u8>()`): digits only, value below
256, nonempty. -/
def parseU8 (cs : List Char) : Option Nat :=
  if cs.isEmpty || cs.any (fun c => !c.isDigit) then none
  else
    let v := cs.foldl (fun acc c => acc * 10 + (c.toNat - 48)) 0
    if v < 256 then some v else none

/-- `State::from_fen`.  Field access goes through `split_whitespace`; a
missing halfmove field defaults to "0"; the fullmove field is never read;
any unwrap on malformed input is `none`. -/
def state_from_fen (cs : List Char) : Option State :=
  let fields := splitWS cs
  match fields with
  | board_str :: active :: castling :: enp :: rest =>
    let halfmove_str := match rest with
      | h :: _ => h
      | [] => ['0']
    match chess_board_from_fen board_str with
    | none => none
    | some boards =>
      match active with
      | [] => none
      | ac :: _ =>
        match flags_from_fen ac castling with
        | none => none
        | some flags =>
          let ep : Option Nat :=
            if enp = ['-'] then some 0
            else match square_try_from enp with
              | .ok sq => some (sqBB sq)
              | _ => none
          match ep with
          | none => none
          | some en_passant =>
            match parseU8 halfmove_str with
            | none => none
            | some halfmove =>
              some { boards := boards, en_passant := en_passant,
                     flags := flags, halfmove := halfmove }
  | _ => none

/-- Decimal digits of a Nat (for the halfmove field of `to_fen`). -/
def natToChars (n : Nat) : List Char :=
  (Nat.toDigits 10 n)

/-- One square's contribution in `ChessBoard::to_fen`: the white piece char
(white side scanned first) and then, unguarded as in the source, the black
piece char. -/
def fenSquareChars (b : ChessBoard) (sq : Nat) : List Char :=
  (match findPieceAt b.white sq with
   | some p => [pieceChar p]
   | none => []) ++
  (match findPieceAt b.black sq with
   | some p => [pieceCharLower p]
   | none => [])

/-- Emit one rank (files 0-7) with run-length encoded empties. -/
def fenRankOut (b : ChessBoard) (rank : Nat) : List Char :=
  let step := fun (acc : Nat × List Char) (j : Nat) =>
    let cs := fenSquareChars b (rank * 8 + j)
    if cs.isEmpty then (acc.1 + 1, acc.2)
    else (0, acc.2 ++ (if acc.1 > 0 then [Char.ofNat (48 + acc.1)] else []) ++ cs)
  let r := (List.range 8).foldl step (0, [])
  r.2 ++ (if r.1 > 0 then [Char.ofNat (48 + r.1)] else [])

/-- `ChessBoard::to_fen`: ranks 7 down to 0, separated by '/'. -/
def chess_board_to_fen (b : ChessBoard) : List Char :=
  joinSep ['/'] ((List.range 8).reverse.map (fun i => fenRankOut b i))

/-- `StateFlags::to_fen`: color char, space, castling letters or '-'. -/
def flags_to_fen (f : StateFlags) : List Char :=
  let castle :=
    (if f.white_king_castle_right then ['K'] else []) ++
    (if f.white_queen_castle_right then ['Q'] else []) ++
    (if f.black_king_castle_right then ['k'] else []) ++
    (if f.black_queen_castle_right then ['q'] else [])
  [(match f.active_color with | .White => 'w' | .Black => 'b'), ' '] ++
  (if castle.isEmpty then ['-'] else castle)

/-- `State::to_fen`: board, flags, en-passant square (or '-'), halfmove,
and a literal fullmove field "1". -/
def state_to_fen (s : State) : List Char :=
  chess_board_to_fen s.boards ++ [' '] ++ flags_to_fen s.flags ++ [' '] ++
  (if s.en_passant = 0 then ['-']
   else squareToChars (lsbIdx s.en_passant)) ++ [' '] ++
  natToChars s.halfmove ++ [' ', '1']


/-! ## Zobrist hashing (src/chess_core/src/hash/zobrist.rs)

The random words are drawn from a ChaCha20 stream seeded with 0xdeadbeef;
the embedding abstracts them as a `ZobristNumbers` assignment (with a
concrete distinct-bit instance `zTest` below for evaluation). -/

/-- The Zobrist random-word tables: 12×64 piece-square words, one word per
castling right, one for the side to move, 8 en-passant-file words. -/
structure ZobristNumbers where
  piece : Color → Piece → Nat → Nat
  active_color : Nat
  castle : Color → CSide → Nat
  en_passant_file : Nat → Nat

/-- The `Hasher` impl of `ZobristHasher`: every consume XORs one word; the
en-passant word is indexed by file. -/
def zobristOps (Z : ZobristNumbers) : HasherOps Nat where
  consume_piece := fun h c pc sq => h ^^^ Z.piece c pc sq
  consume_castle := fun h c s => h ^^^ Z.castle c s
  consume_color := fun h => h ^^^ Z.active_color
  consume_en_passant := fun h sq => h ^^^ Z.en_passant_file (sq % 8)

/-- `ZobristHasher::init`: hash a (packed) state from scratch.  Note the
color term: the source tests `!state.flags.active_color() == Color::White`,
i.e. the word is XORed in exactly when Black is to move. -/
def zobrist_init (Z : ZobristNumbers) (p : Nat) : Nat :=
  let pieces :=
    ([Color.White, Color.Black].foldl (fun acc c =>
      pieceArray.foldl (fun acc2 pc =>
        (bbSquaresAsc 64 (board p (pieceOff c pc))).foldl
          (fun h sq => h ^^^ Z.piece c pc sq) acc2) acc) 0)
  let withColor :=
    if (activeColor p).not = .White then pieces ^^^ Z.active_color else pieces
  let withCastle :=
    [(Color.White, CSide.King), (Color.White, CSide.Queen),
     (Color.Black, CSide.King), (Color.Black, CSide.Queen)].foldl
      (fun h cs => if castleRight p cs.1 cs.2 then h ^^^ Z.castle cs.1 cs.2 else h)
      withColor
  match epBoard p with
  | 0 => withCastle
  | e+1 => withCastle ^^^ Z.en_passant_file (lsbIdx (e+1) % 8)

/-- A concrete Zobrist assignment with pairwise distinct single-bit words.
It stands in for the seeded ChaCha20 table (whose exact words the
embedding does not reproduce); any assignment whose words are nonzero
exhibits the same incremental-hash behaviour that the theorems below
evaluate. -/
def zTest : ZobristNumbers where
  piece := fun c pc sq =>
    1 <<< ((match c with | .White => 0 | .Black => 384) +
      (match pc with
       | .Pawn => 0 | .Knight => 64 | .Bishop => 128
       | .Rook => 192 | .Queen => 256 | .King => 320) + sq % 64)
  active_color := 1 <<< 768
  castle := fun c s => 1 <<< (769 + castleIdx c s)
  en_passant_file := fun f => 1 <<< (773 + f % 8)

/-- `HashedState::from_fen` with the `ZobristHasher`: the initial hash of
a position is `init` of its state. -/
def zobristOfState (Z : ZobristNumbers) (p : Nat) : Nat := zobrist_init Z p

/-! ## MCTS terminal scoring (src/chess_engines/src/mcts/mod.rs) -/

/-- `white_score`: the terminal evaluation of a finished rollout position
(source values 1.0 / 0.0 / 0.5, represented exactly in ℚ).  It consults
`is_check` exactly as the source does. -/
def white_score (p : Nat) : ℚ :=
  if is_check p then
    match activeColor p with
    | .White => 0
    | .Black => 1
  else 1/2

/-! ## MoveList::order_ply (src/chess_core/src/move/mod.rs lines 239-264
and src/chess_core/src/collections.rs lines 82-107; the two copies are
textually identical)

`order_ply` borrows the current ply as a mutable slice
(`current_ply_mut()` = `moves[ply_first_move[current_ply] .. total_count]`)
and permutes it with `swap`s; the embedding mirrors that at the slice
level.  Moves are the packed 16-bit integers. -/

/-- A `MoveList`: the flat move arena, the per-ply first-move indices, the
open-ply counter and the total move count. -/
structure MoveList where
  moves : List Nat
  ply_first_move : List Nat
  current_ply : Nat
  total_count : Nat
deriving DecidableEq, Repr

/-- In-bounds slice swap (Rust `<[T]>::swap`; out-of-bounds indices cannot
arise from `order_ply`, whose swap indices are below the slice length). -/
def listSwap (l : List Nat) (i j : Nat) : List Nat :=
  match l.get? i, l.get? j with
  | some a, some b => (l.set i b).set j a
  | _, _ => l

/-- The first loop of `order_ply`: find the requested first move, swap it
to the front, and report the `sorted_index` after the loop (1 when found,
0 otherwise). -/
def orderPlyFront (ply : List Nat) (first : Option Nat) : List Nat × Nat :=
  match first with
  | none => (ply, 0)
  | some f =>
    match ply.findIdx? (fun m => m = f) with
    | some i => (listSwap ply i 0, 1)
    | none => (ply, 0)

/-- The second loop of `order_ply`: walk `i` from `sorted_index` to the
end, swapping each loud (non-quiet) move down to `sorted_index` and
advancing it. -/
def orderPlyLoud (fuel : Nat) (ply : List Nat) (i sorted : Nat) : List Nat :=
  match fuel with
  | 0 => ply
  | fuel+1 =>
    if i < ply.length then
      if !codeIsQuiet (mCode (ply.getD i 0)) then
        orderPlyLoud fuel (listSwap ply i sorted) (i+1) (sorted+1)
      else
        orderPlyLoud fuel ply (i+1) sorted
    else ply

/-- `order_ply` on the current-ply slice. -/
def orderPlySlice (ply : List Nat) (first : Option Nat) : List Nat :=
  let fr := orderPlyFront ply first
  orderPlyLoud ply.length fr.1 fr.2 fr.2

/-- `MoveList::order_ply`: the slice `moves[ply_first_move[current_ply] ..
total_count]` is reordered in place through the `current_ply_mut` borrow;
the other fields and the rest of the arena are untouched. -/
def MoveList.order_ply (ml : MoveList) (first : Option Nat) : MoveList :=
  let lo := ml.ply_first_move.getD ml.current_ply 0
  let front := ml.moves.take lo
  let mid := (ml.moves.take ml.total_count).drop lo
  let back := ml.moves.drop ml.total_count
  { ml with moves := front ++ orderPlySlice mid first ++ back }

/-! ## Concrete positions used by the evidence theorems -/

/-- The standard starting position. -/
def startFen : List Char := "rnbqkbnr/pppppppp/8/8/8/8/PPPPPPPP/RNBQKBNR w KQkq - 0 1".toList
/-- The "kiwipete" perft position. -/
def kiwiFen : List Char := "r3k2r/p1ppqpb1/bn2pnp1/3PN3/1p2P3/2N2Q1p/PPPBBPPP/R3K2R w KQkq - 0 1".toList
/-- Perft position 3 of the spec's table. -/
def p3Fen : List Char := "8/2p5/3p4/KP5r/1R3p1k/8/4P1P1/8 w - - 0 1".toList
/-- Fallback for `Option.getD` on parses that are proven to succeed. -/
def dummyState : State := ⟨ChessBoard.emptyB, 0, ⟨.White, false, false, false, false⟩, 0⟩
/-- The packed engine state of a FEN (parse, then pack). -/
def pOf (f : List Char) : Nat := packState ((state_from_fen f).getD dummyState)

/-- Membership of a packed 16-bit move in a packed move list. -/
def mlHas : Nat → Nat → Nat → Bool
  | 0, _, _ => false
  | fuel+1, ml, m =>
    match ml with
    | 0 => false
    | l+1 => (l+1) &&& 0xFFFF == m || mlHas fuel ((l+1) >>> 16) m

/-- The move loop of the legal-move test: `make` each listed move (keeping
the parent state) and test `was_move_legal`. -/
def hasLegalAux : Nat → Nat → Nat → Bool
  | 0, _, _ => false
  | fuel+1, p, ml =>
    match ml with
    | 0 => false
    | l+1 =>
      was_move_legal (makeState p ((l+1) &&& 0xFFFF)) || hasLegalAux fuel p ((l+1) >>> 16)

/-- Does the position have at least one legal move among its pseudo-legal
moves? -/
def hasLegalMove (p : Nat) : Bool := hasLegalAux 256 p (pseudo_legal_moves p)

/-- Apply `Position::make` (`NoopHasher`) along a list of moves, checking at
every step that the move is generated by `pseudo_legal_moves` and that the
resulting state passes `was_move_legal`; `none` when a step fails.  The
evidence theorems use it to certify that their states are reachable. -/
def playChecked (p : Nat) : List Nat → Option Nat
  | [] => some p
  | m :: rest =>
    if mlHas 256 (pseudo_legal_moves p) m then
      let p2 := (Position.make noopOps p () m).1
      if was_move_legal p2 then playChecked p2 rest else none
    else none

/-- The move sequence from the starting position whose final move is a
king-side castle made after the h1 rook has already left h1 (legal for the
engine because the rook move failed to clear the castling right): h2h4,
a7a6, h1h3, a6a5, g1f3, b7b6, g2g3, c7c6, f1g2, d7d6, and then e1g1. -/
def ghostPrefix : List Nat :=
  [mkMove 15 31 DOUBLE_PAWN_PUSH, mkMove 48 40 QUIET, mkMove 7 23 QUIET,
   mkMove 40 32 QUIET, mkMove 6 21 QUIET, mkMove 49 41 QUIET,
   mkMove 14 22 QUIET, mkMove 50 42 QUIET, mkMove 5 14 QUIET,
   mkMove 51 43 QUIET]

/-- The ghost castle itself: e1g1. -/
def ghostCastle : Nat := mkMove 4 6 KING_CASTLE

/-- Thread `Position::make` with a hasher along a move list (returns state
and hash). -/
def playHashed (H : HasherOps α) (p : Nat) (h : α) : List Nat → Nat × α
  | [] => (p, h)
  | m :: rest =>
    let r := Position.make H p h m
    playHashed H r.1 r.2.1 rest

/-! ## Round-trip infrastructure for the FEN theorems

`emitFiles` is the run-length emission of `ChessBoard::to_fen` for one rank
restated as a recursion over the remaining files (the theorems prove it
equal to the `foldl` form `fenRankOut`), and `addFiles` is the board update
the parser performs on the same files. -/

/-- Run-length emission of the squares `rank*8+j` for `j` in `js`, with
`p` pending empty squares. -/
def emitFiles (b : ChessBoard) (k : Nat) : List Nat → Nat → List Char
  | [], p => if p > 0 then [Char.ofNat (48 + p)] else []
  | j :: rest, p =>
    let cs := fenSquareChars b (k * 8 + j)
    if cs.isEmpty then emitFiles b k rest (p+1)
    else (if p > 0 then [Char.ofNat (48 + p)] else []) ++ cs ++ emitFiles b k rest 0

/-- Set one piece bit of a board (the update `fenLineOnto` performs per
piece character). -/
def addPieceAt (B : ChessBoard) (c : Color) (pc : Piece) (sq : Nat) : ChessBoard :=
  B.setC c ((B.get c).set pc ((B.get c).get pc ||| sqBB sq))

/-- Add, square by square, the pieces `ChessBoard::to_fen` reports on the
squares `rank*8+j` for `j` in `js` (white board consulted first, as in
`fenSquareChars`). -/
def addFiles (b : ChessBoard) (k : Nat) : List Nat → ChessBoard → ChessBoard
  | [], B => B
  | j :: rest, B =>
    match findPieceAt b.white (k * 8 + j) with
    | some pw => addFiles b k rest (addPieceAt B .White pw (k * 8 + j))
    | none =>
      match findPieceAt b.black (k * 8 + j) with
      | some pb => addFiles b k rest (addPieceAt B .Black pb (k * 8 + j))
      | none => addFiles b k rest B

/-- The twelve piece boards of a `ChessBoard` as a list (white side first,
`PieceType::as_array` order). -/
def boardsList (b : ChessBoard) : List Nat :=
  [b.white.pawn, b.white.knight, b.white.bishop, b.white.rook, b.white.queen, b.white.king,
   b.black.pawn, b.black.knight, b.black.bishop, b.black.rook, b.black.queen, b.black.king]

/-- A board the core can store: twelve 64-bit boards, pairwise disjoint
(no square carries two pieces). -/
def ChessBoard.wf (b : ChessBoard) : Prop :=
  (∀ x ∈ boardsList b, x < 2^64) ∧
  (boardsList b).Pairwise (fun x y => x &&& y = 0)

/-- A state the core stores: well-formed board, en-passant board empty or a
single marker square on the third or sixth rank, halfmove below 256 (the
`u8` the struct stores). -/
def stateValid (s : State) : Prop :=
  s.boards.wf ∧
  (s.en_passant = 0 ∨ ∃ f, f < 8 ∧
    (s.en_passant = sqBB (16 + f) ∨ s.en_passant = sqBB (40 + f))) ∧
  s.halfmove < 256

/-- The first five FEN fields of `State::to_fen` (everything except the
literal fullmove field). -/
def fenBody (s : State) : List Char :=
  chess_board_to_fen s.boards ++ [' '] ++ flags_to_fen s.flags ++ [' '] ++
  (if s.en_passant = 0 then ['-']
   else squareToChars (lsbIdx s.en_passant)) ++ [' '] ++
  natToChars s.halfmove

/-- The piece `ChessBoard::to_fen` reports on a square (white side first,
as in `fenSquareChars`). -/
def chooseAt (b : ChessBoard) (sq : Nat) : Option (Color × Piece) :=
  match findPieceAt b.white sq with
  | some pw => some (.White, pw)
  | none =>
    match findPieceAt b.black sq with
    | some pb => some (.Black, pb)
    | none => none

/-- One piece board of a `ChessBoard`. -/
def getCP (B : ChessBoard) (c : Color) (pc : Piece) : Nat := (B.get c).get pc

/-- A fool's-mate-like position: White to move, the white king attacked by
the black queen on h4, and no legal move (checkmate against White). -/
def foolFen : List Char := "rnb1kbnr/pppp1ppp/8/4p3/6Pq/5P2/PPPPP2P/RNBQKBNR w KQkq - 0 1".toList

/-- The state reached from the starting position by `ghostPrefix` (the
`getD` default is never taken: the theorems prove the play succeeds). -/
def ghostState : Nat := (playChecked (pOf startFen) ghostPrefix).getD 0

/-- A small concrete `MoveList`: three moves forming a single open ply. -/
def mlW : MoveList := ⟨[5, 16397, 7], [0], 0, 3⟩

set_option maxRecDepth 20000
set_option maxHeartbeats 1000000000

theorem emit_bridge (b : ChessBoard) (k : Nat) : ∀ (js : List Nat) (p : Nat) (out : List Char),
    (let r := js.foldl (fun acc j =>
        let cs := fenSquareChars b (k * 8 + j)
        if cs.isEmpty then (acc.1 + 1, acc.2)
        else (0, acc.2 ++ (if acc.1 > 0 then [Char.ofNat (48 + acc.1)] else []) ++ cs)) (p, out)
     r.2 ++ (if r.1 > 0 then [Char.ofNat (48 + r.1)] else [])) = out ++ emitFiles b k js p := by
  intro js
  induction js with
  | nil => intro p out; simp [emitFiles]
  | cons j rest ih =>
    intro p out
    by_cases h : (fenSquareChars b (k * 8 + j)).isEmpty
    · simp only [List.foldl_cons, emitFiles, h, if_true]
      simpa using ih (p+1) out
    · simp only [List.foldl_cons, emitFiles, h, if_false]
      simpa [List.append_assoc] using
        ih 0 (out ++ (if p > 0 then [Char.ofNat (48 + p)] else []) ++ fenSquareChars b (k * 8 + j))

theorem fenRankOut_eq (b : ChessBoard) (k : Nat) :
    fenRankOut b k = emitFiles b k (List.range 8) 0 := by
  have h := emit_bridge b k (List.range 8) 0 []
  simpa [fenRankOut] using h

theorem digit_toNat {p : Nat} (hp : p ≤ 9) : (Char.ofNat (48 + p)).toNat = 48 + p := by
  interval_cases p <;> decide

theorem digit_isDigit {p : Nat} (h1 : 1 ≤ p) (hp : p ≤ 9) :
    (Char.ofNat (48 + p)).isDigit = true := by
  interval_cases p <;> decide

theorem parse_digit_run (k : Nat) : ∀ (p : Nat), p ≤ 8 → ∀ (rest : List Char) (file : Nat) (B : ChessBoard),
    fenLineOnto k ((if p > 0 then [Char.ofNat (48 + p)] else []) ++ rest) file B =
      fenLineOnto k rest (file + p) B := by
  intro p hp rest file B
  cases p with
  | zero => simp
  | succ q =>
    have h1 : 1 ≤ q + 1 := by omega
    have h9 : q + 1 ≤ 9 := by omega
    rw [if_pos (by omega : q + 1 > 0)]
    simp only [List.cons_append, List.nil_append]
    rw [fenLineOnto]
    rw [digit_isDigit h1 h9]
    simp only [if_true, digit_toNat h9]
    congr 1
    omega

theorem pieceChar_upper (pc : Piece) :
    (pieceChar pc).isDigit = false ∧ (pieceChar pc).isUpper = true ∧
    pieceOfChar (pieceChar pc).toLower = some pc := by
  cases pc <;> refine ⟨by decide, by decide, by decide⟩

theorem pieceChar_lower (pc : Piece) :
    (pieceCharLower pc).isDigit = false ∧ (pieceCharLower pc).isUpper = false ∧
    pieceOfChar (pieceCharLower pc).toLower = some pc := by
  cases pc <;> refine ⟨by decide, by decide, by decide⟩

theorem parse_emit (b : ChessBoard)
    (hdisj : ∀ sq, findPieceAt b.white sq = none ∨ findPieceAt b.black sq = none)
    (k : Nat) (hk : k < 8) :
    ∀ (n j p : Nat) (B : ChessBoard), j + n = 8 → p ≤ j →
      fenLineOnto k (emitFiles b k (List.range' j n) p) (j - p) B =
        some (addFiles b k (List.range' j n) B) := by
  intro n
  induction n with
  | zero =>
    intro j p B hj hp
    simp only [List.range', emitFiles, addFiles]
    have h := parse_digit_run k p (by omega) [] (j - p) B
    simp only [List.append_nil] at h
    rw [h]
    rfl
  | succ n ih =>
    intro j p B hj hp
    rw [List.range'_succ]
    have hj8 : j < 8 := by omega
    rcases hw : findPieceAt b.white (k * 8 + j) with _ | pw
    · rcases hbk : findPieceAt b.black (k * 8 + j) with _ | pb
      · -- empty square
        have hcs : fenSquareChars b (k * 8 + j) = [] := by
          simp [fenSquareChars, hw, hbk]
        simp only [emitFiles, hcs, List.isEmpty_nil, if_true, addFiles, hw, hbk]
        have := ih (j+1) (p+1) B (by omega) (by omega)
        have harith : j + 1 - (p + 1) = j - p := by omega
        rw [harith] at this
        exact this
      · -- black piece
        have hcs : fenSquareChars b (k * 8 + j) = [pieceCharLower pb] := by
          simp [fenSquareChars, hw, hbk]
        obtain ⟨hd, hu, hp2⟩ := pieceChar_lower pb
        simp only [emitFiles, hcs, List.isEmpty_cons, Bool.false_eq_true, if_false, addFiles, hw, hbk]
        rw [List.append_assoc]
        rw [parse_digit_run k p (by omega) _ (j - p) B]
        have hfile : j - p + p = j := by omega
        rw [hfile]
        rw [List.cons_append, List.nil_append, fenLineOnto]
        rw [hd]
        simp only [Bool.false_eq_true, if_false]
        rw [if_neg (by omega : ¬(j ≥ 8 ∨ k ≥ 8))]
        rw [hp2]
        rw [hu]
        simp only [Bool.false_eq_true, if_false]
        have := ih (j+1) 0 (addPieceAt B .Black pb (k * 8 + j)) (by omega) (by omega)
        simp only [Nat.sub_zero] at this
        rw [show (addPieceAt B .Black pb (k * 8 + j)) =
          (B.setC Color.Black ((B.get Color.Black).set pb
            ((B.get Color.Black).get pb ||| sqBB (k * 8 + j)))) from rfl] at this
        exact this
    · -- white piece
      have hbk : findPieceAt b.black (k * 8 + j) = none := by
        rcases hdisj (k * 8 + j) with h | h
        · rw [hw] at h; cases h
        · exact h
      have hcs : fenSquareChars b (k * 8 + j) = [pieceChar pw] := by
        simp [fenSquareChars, hw, hbk]
      obtain ⟨hd, hu, hp2⟩ := pieceChar_upper pw
      simp only [emitFiles, hcs, List.isEmpty_cons, Bool.false_eq_true, if_false, addFiles, hw]
      rw [List.append_assoc]
      rw [parse_digit_run k p (by omega) _ (j - p) B]
      have hfile : j - p + p = j := by omega
      rw [hfile]
      rw [List.cons_append, List.nil_append, fenLineOnto]
      rw [hd]
      simp only [Bool.false_eq_true, if_false]
      rw [if_neg (by omega : ¬(j ≥ 8 ∨ k ≥ 8))]
      rw [hp2]
      rw [hu]
      simp only [if_true]
      have := ih (j+1) 0 (addPieceAt B .White pw (k * 8 + j)) (by omega) (by omega)
      simp only [Nat.sub_zero] at this
      rw [show (addPieceAt B .White pw (k * 8 + j)) =
        (B.setC Color.White ((B.get Color.White).set pw
          ((B.get Color.White).get pw ||| sqBB (k * 8 + j)))) from rfl] at this
      exact this

theorem andBit_eq (x sq : Nat) : (x &&& sqBB sq != 0) = x.testBit sq := by
  unfold sqBB
  rw [Nat.shiftLeft_eq, one_mul, Nat.and_two_pow]
  cases h : x.testBit sq
  · simp [h]
  · simp only [h, Bool.toNat_true, one_mul, ne_eq, bne_iff_ne]
    have := Nat.two_pow_pos sq
    omega

theorem getCP_list (b : ChessBoard) :
    getCP b .White .Pawn = b.white.pawn ∧ getCP b .White .Knight = b.white.knight ∧
    getCP b .White .Bishop = b.white.bishop ∧ getCP b .White .Rook = b.white.rook ∧
    getCP b .White .Queen = b.white.queen ∧ getCP b .White .King = b.white.king ∧
    getCP b .Black .Pawn = b.black.pawn ∧ getCP b .Black .Knight = b.black.knight ∧
    getCP b .Black .Bishop = b.black.bishop ∧ getCP b .Black .Rook = b.black.rook ∧
    getCP b .Black .Queen = b.black.queen ∧ getCP b .Black .King = b.black.king := by
  refine ⟨rfl, rfl, rfl, rfl, rfl, rfl, rfl, rfl, rfl, rfl, rfl, rfl⟩

theorem disj_not_both (x y sq : Nat) (hxy : x &&& y = 0)
    (hx : x.testBit sq = true) (hy : y.testBit sq = true) : False := by
  have := Nat.testBit_and x y sq
  rw [hxy] at this
  simp [hx, hy] at this

theorem findPieceAt_iff (s : ChessBoardSide)
    (h1 : s.pawn &&& s.knight = 0) (h2 : s.pawn &&& s.bishop = 0)
    (h3 : s.pawn &&& s.rook = 0) (h4 : s.pawn &&& s.queen = 0)
    (h5 : s.pawn &&& s.king = 0) (h6 : s.knight &&& s.bishop = 0)
    (h7 : s.knight &&& s.rook = 0) (h8 : s.knight &&& s.queen = 0)
    (h9 : s.knight &&& s.king = 0) (h10 : s.bishop &&& s.rook = 0)
    (h11 : s.bishop &&& s.queen = 0) (h12 : s.bishop &&& s.king = 0)
    (h13 : s.rook &&& s.queen = 0) (h14 : s.rook &&& s.king = 0)
    (h15 : s.queen &&& s.king = 0) (sq : Nat) (pc : Piece) :
    findPieceAt s sq = some pc ↔ (s.get pc).testBit sq := by
  unfold findPieceAt pieceArray
  simp only [List.find?, ChessBoardSide.get, andBit_eq]
  cases hP : s.pawn.testBit sq <;>
  cases hN : s.knight.testBit sq <;>
  cases hB : s.bishop.testBit sq <;>
  cases hR : s.rook.testBit sq <;>
  cases hQ : s.queen.testBit sq <;>
  cases hK : s.king.testBit sq <;>
  first
    | exact (disj_not_both _ _ _ h1 hP hN).elim
    | exact (disj_not_both _ _ _ h2 hP hB).elim
    | exact (disj_not_both _ _ _ h3 hP hR).elim
    | exact (disj_not_both _ _ _ h4 hP hQ).elim
    | exact (disj_not_both _ _ _ h5 hP hK).elim
    | exact (disj_not_both _ _ _ h6 hN hB).elim
    | exact (disj_not_both _ _ _ h7 hN hR).elim
    | exact (disj_not_both _ _ _ h8 hN hQ).elim
    | exact (disj_not_both _ _ _ h9 hN hK).elim
    | exact (disj_not_both _ _ _ h10 hB hR).elim
    | exact (disj_not_both _ _ _ h11 hB hQ).elim
    | exact (disj_not_both _ _ _ h12 hB hK).elim
    | exact (disj_not_both _ _ _ h13 hR hQ).elim
    | exact (disj_not_both _ _ _ h14 hR hK).elim
    | exact (disj_not_both _ _ _ h15 hQ hK).elim
    | (cases pc <;> simp_all [ChessBoardSide.get])

theorem sqBB_testBit (sq t : Nat) : (sqBB sq).testBit t = true ↔ sq = t := by
  unfold sqBB
  rw [Nat.shiftLeft_eq, one_mul, Nat.testBit_two_pow]
  simp

theorem addPieceAt_testBit (B : ChessBoard) (c : Color) (pc : Piece) (sq : Nat)
    (c' : Color) (pc' : Piece) (t : Nat) :
    ((getCP (addPieceAt B c pc sq) c' pc').testBit t = true ↔
      ((getCP B c' pc').testBit t = true ∨ (c = c' ∧ pc = pc' ∧ sq = t))) := by
  cases c <;> cases c' <;> cases pc <;> cases pc' <;>
    simp [addPieceAt, getCP, ChessBoard.setC, ChessBoard.get,
      ChessBoardSide.set, ChessBoardSide.get, Nat.testBit_or, sqBB_testBit]

theorem findPieceAt_eq_none (s : ChessBoardSide) (sq : Nat)
    (h : ∀ pc : Piece, (s.get pc).testBit sq = false) :
    findPieceAt s sq = none := by
  have hP := h .Pawn
  have hN := h .Knight
  have hB := h .Bishop
  have hR := h .Rook
  have hQ := h .Queen
  have hK := h .King
  simp only [ChessBoardSide.get] at hP hN hB hR hQ hK
  unfold findPieceAt pieceArray
  simp [List.find?, andBit_eq, ChessBoardSide.get, hP, hN, hB, hR, hQ, hK]

theorem wf_disjD (b : ChessBoard)
    (hpw : (boardsList b).Pairwise (fun x y => x &&& y = 0)) :
    ∀ i j, i < j → j < 12 →
      (boardsList b).getD i 0 &&& (boardsList b).getD j 0 = 0 := by
  intro i j hij hj
  have hlen : (boardsList b).length = 12 := by simp [boardsList]
  rw [List.pairwise_iff_getElem] at hpw
  have hi2 : i < (boardsList b).length := by omega
  have hj2 : j < (boardsList b).length := by omega
  have h := hpw i j hi2 hj2 hij
  rw [List.getD_eq_getElem _ _ hi2, List.getD_eq_getElem _ _ hj2]
  exact h

theorem wf_cross (b : ChessBoard)
    (hpw : (boardsList b).Pairwise (fun x y => x &&& y = 0))
    (pw pc : Piece) : b.white.get pw &&& b.black.get pc = 0 := by
  have hD := wf_disjD b hpw
  cases pw <;> cases pc <;>
    first
      | simpa [boardsList, ChessBoardSide.get] using hD 0 6 (by omega) (by omega)
      | simpa [boardsList, ChessBoardSide.get] using hD 0 7 (by omega) (by omega)
      | simpa [boardsList, ChessBoardSide.get] using hD 0 8 (by omega) (by omega)
      | simpa [boardsList, ChessBoardSide.get] using hD 0 9 (by omega) (by omega)
      | simpa [boardsList, ChessBoardSide.get] using hD 0 10 (by omega) (by omega)
      | simpa [boardsList, ChessBoardSide.get] using hD 0 11 (by omega) (by omega)
      | simpa [boardsList, ChessBoardSide.get] using hD 1 6 (by omega) (by omega)
      | simpa [boardsList, ChessBoardSide.get] using hD 1 7 (by omega) (by omega)
      | simpa [boardsList, ChessBoardSide.get] using hD 1 8 (by omega) (by omega)
      | simpa [boardsList, ChessBoardSide.get] using hD 1 9 (by omega) (by omega)
      | simpa [boardsList, ChessBoardSide.get] using hD 1 10 (by omega) (by omega)
      | simpa [boardsList, ChessBoardSide.get] using hD 1 11 (by omega) (by omega)
      | simpa [boardsList, ChessBoardSide.get] using hD 2 6 (by omega) (by omega)
      | simpa [boardsList, ChessBoardSide.get] using hD 2 7 (by omega) (by omega)
      | simpa [boardsList, ChessBoardSide.get] using hD 2 8 (by omega) (by omega)
      | simpa [boardsList, ChessBoardSide.get] using hD 2 9 (by omega) (by omega)
      | simpa [boardsList, ChessBoardSide.get] using hD 2 10 (by omega) (by omega)
      | simpa [boardsList, ChessBoardSide.get] using hD 2 11 (by omega) (by omega)
      | simpa [boardsList, ChessBoardSide.get] using hD 3 6 (by omega) (by omega)
      | simpa [boardsList, ChessBoardSide.get] using hD 3 7 (by omega) (by omega)
      | simpa [boardsList, ChessBoardSide.get] using hD 3 8 (by omega) (by omega)
      | simpa [boardsList, ChessBoardSide.get] using hD 3 9 (by omega) (by omega)
      | simpa [boardsList, ChessBoardSide.get] using hD 3 10 (by omega) (by omega)
      | simpa [boardsList, ChessBoardSide.get] using hD 3 11 (by omega) (by omega)
      | simpa [boardsList, ChessBoardSide.get] using hD 4 6 (by omega) (by omega)
      | simpa [boardsList, ChessBoardSide.get] using hD 4 7 (by omega) (by omega)
      | simpa [boardsList, ChessBoardSide.get] using hD 4 8 (by omega) (by omega)
      | simpa [boardsList, ChessBoardSide.get] using hD 4 9 (by omega) (by omega)
      | simpa [boardsList, ChessBoardSide.get] using hD 4 10 (by omega) (by omega)
      | simpa [boardsList, ChessBoardSide.get] using hD 4 11 (by omega) (by omega)
      | simpa [boardsList, ChessBoardSide.get] using hD 5 6 (by omega) (by omega)
      | simpa [boardsList, ChessBoardSide.get] using hD 5 7 (by omega) (by omega)
      | simpa [boardsList, ChessBoardSide.get] using hD 5 8 (by omega) (by omega)
      | simpa [boardsList, ChessBoardSide.get] using hD 5 9 (by omega) (by omega)
      | simpa [boardsList, ChessBoardSide.get] using hD 5 10 (by omega) (by omega)
      | simpa [boardsList, ChessBoardSide.get] using hD 5 11 (by omega) (by omega)

theorem findw_iff (b : ChessBoard)
    (hpw : (boardsList b).Pairwise (fun x y => x &&& y = 0))
    (t : Nat) (pc : Piece) :
    findPieceAt b.white t = some pc ↔ (b.white.get pc).testBit t = true := by
  have hD := wf_disjD b hpw
  exact findPieceAt_iff b.white
    (by simpa [boardsList] using hD 0 1 (by omega) (by omega))
    (by simpa [boardsList] using hD 0 2 (by omega) (by omega))
    (by simpa [boardsList] using hD 0 3 (by omega) (by omega))
    (by simpa [boardsList] using hD 0 4 (by omega) (by omega))
    (by simpa [boardsList] using hD 0 5 (by omega) (by omega))
    (by simpa [boardsList] using hD 1 2 (by omega) (by omega))
    (by simpa [boardsList] using hD 1 3 (by omega) (by omega))
    (by simpa [boardsList] using hD 1 4 (by omega) (by omega))
    (by simpa [boardsList] using hD 1 5 (by omega) (by omega))
    (by simpa [boardsList] using hD 2 3 (by omega) (by omega))
    (by simpa [boardsList] using hD 2 4 (by omega) (by omega))
    (by simpa [boardsList] using hD 2 5 (by omega) (by omega))
    (by simpa [boardsList] using hD 3 4 (by omega) (by omega))
    (by simpa [boardsList] using hD 3 5 (by omega) (by omega))
    (by simpa [boardsList] using hD 4 5 (by omega) (by omega))
    t pc

theorem findb_iff (b : ChessBoard)
    (hpw : (boardsList b).Pairwise (fun x y => x &&& y = 0))
    (t : Nat) (pc : Piece) :
    findPieceAt b.black t = some pc ↔ (b.black.get pc).testBit t = true := by
  have hD := wf_disjD b hpw
  exact findPieceAt_iff b.black
    (by simpa [boardsList] using hD 6 7 (by omega) (by omega))
    (by simpa [boardsList] using hD 6 8 (by omega) (by omega))
    (by simpa [boardsList] using hD 6 9 (by omega) (by omega))
    (by simpa [boardsList] using hD 6 10 (by omega) (by omega))
    (by simpa [boardsList] using hD 6 11 (by omega) (by omega))
    (by simpa [boardsList] using hD 7 8 (by omega) (by omega))
    (by simpa [boardsList] using hD 7 9 (by omega) (by omega))
    (by simpa [boardsList] using hD 7 10 (by omega) (by omega))
    (by simpa [boardsList] using hD 7 11 (by omega) (by omega))
    (by simpa [boardsList] using hD 8 9 (by omega) (by omega))
    (by simpa [boardsList] using hD 8 10 (by omega) (by omega))
    (by simpa [boardsList] using hD 8 11 (by omega) (by omega))
    (by simpa [boardsList] using hD 9 10 (by omega) (by omega))
    (by simpa [boardsList] using hD 9 11 (by omega) (by omega))
    (by simpa [boardsList] using hD 10 11 (by omega) (by omega))
    t pc

theorem chooseAt_iff (b : ChessBoard)
    (hpw : (boardsList b).Pairwise (fun x y => x &&& y = 0))
    (t : Nat) (c : Color) (pc : Piece) :
    chooseAt b t = some (c, pc) ↔ (getCP b c pc).testBit t = true := by
  unfold chooseAt
  rcases hw : findPieceAt b.white t with _ | pw
  · rcases hbk : findPieceAt b.black t with _ | pb
    · constructor
      · intro h; cases h
      · intro h
        cases c
        · have := (findw_iff b hpw t pc).mpr h
          rw [hw] at this; cases this
        · have := (findb_iff b hpw t pc).mpr h
          rw [hbk] at this; cases this
    · constructor
      · intro h
        simp only [Option.some.injEq, Prod.mk.injEq] at h
        obtain ⟨hc, hp⟩ := h
        subst hc; subst hp
        exact (findb_iff b hpw t pb).mp hbk
      · intro h
        cases c
        · have := (findw_iff b hpw t pc).mpr h
          rw [hw] at this; cases this
        · have := (findb_iff b hpw t pc).mpr h
          rw [hbk] at this
          injection this with h2; subst h2; rfl
  · constructor
    · intro h
      simp only [Option.some.injEq, Prod.mk.injEq] at h
      obtain ⟨hc, hp⟩ := h
      subst hc; subst hp
      exact (findw_iff b hpw t pw).mp hw
    · intro h
      cases c
      · have := (findw_iff b hpw t pc).mpr h
        rw [hw] at this
        injection this with h2; subst h2; rfl
      · have hwt : (b.white.get pw).testBit t = true := (findw_iff b hpw t pw).mp hw
        have hcr : b.white.get pw &&& b.black.get pc = 0 := wf_cross b hpw pw pc
        exact (disj_not_both _ _ _ hcr hwt h).elim


theorem addFiles_testBit (b : ChessBoard) (k : Nat) :
    ∀ (js : List Nat) (B : ChessBoard) (c : Color) (pc : Piece) (t : Nat),
    ((getCP (addFiles b k js B) c pc).testBit t = true ↔
      ((getCP B c pc).testBit t = true ∨
       ((∃ j ∈ js, k * 8 + j = t) ∧ chooseAt b t = some (c, pc)))) := by
  intro js
  induction js with
  | nil =>
    intro B c pc t
    simp [addFiles]
  | cons j rest ih =>
    intro B c pc t
    rcases hw : findPieceAt b.white (k * 8 + j) with _ | pw
    · rcases hbk : findPieceAt b.black (k * 8 + j) with _ | pb
      · simp only [addFiles, hw, hbk]
        rw [ih]
        constructor
        · rintro (h | ⟨⟨j2, hj2, hje⟩, hch⟩)
          · exact Or.inl h
          · exact Or.inr ⟨⟨j2, List.mem_cons_of_mem _ hj2, hje⟩, hch⟩
        · rintro (h | ⟨⟨j2, hj2, hje⟩, hch⟩)
          · exact Or.inl h
          · rcases List.mem_cons.mp hj2 with rfl | hj3
            · subst hje
              simp [chooseAt, hw, hbk] at hch
            · exact Or.inr ⟨⟨j2, hj3, hje⟩, hch⟩
      · have hch : chooseAt b (k * 8 + j) = some (.Black, pb) := by
          simp [chooseAt, hw, hbk]
        simp only [addFiles, hw, hbk]
        rw [ih, addPieceAt_testBit]
        constructor
        · rintro ((h | ⟨hc, hp, ht2⟩) | ⟨⟨j2, hj2, hje⟩, hch2⟩)
          · exact Or.inl h
          · subst hc; subst hp; subst ht2
            exact Or.inr ⟨⟨j, List.mem_cons_self _ _, rfl⟩, hch⟩
          · exact Or.inr ⟨⟨j2, List.mem_cons_of_mem _ hj2, hje⟩, hch2⟩
        · rintro (h | ⟨⟨j2, hj2, hje⟩, hch2⟩)
          · exact Or.inl (Or.inl h)
          · rcases List.mem_cons.mp hj2 with rfl | hj3
            · subst hje
              rw [hch] at hch2
              simp only [Option.some.injEq, Prod.mk.injEq] at hch2
              exact Or.inl (Or.inr ⟨hch2.1, hch2.2, rfl⟩)
            · exact Or.inr ⟨⟨j2, hj3, hje⟩, hch2⟩
    · have hch : chooseAt b (k * 8 + j) = some (.White, pw) := by
        simp [chooseAt, hw]
      simp only [addFiles, hw]
      rw [ih, addPieceAt_testBit]
      constructor
      · rintro ((h | ⟨hc, hp, ht2⟩) | ⟨⟨j2, hj2, hje⟩, hch2⟩)
        · exact Or.inl h
        · subst hc; subst hp; subst ht2
          exact Or.inr ⟨⟨j, List.mem_cons_self _ _, rfl⟩, hch⟩
        · exact Or.inr ⟨⟨j2, List.mem_cons_of_mem _ hj2, hje⟩, hch2⟩
      · rintro (h | ⟨⟨j2, hj2, hje⟩, hch2⟩)
        · exact Or.inl (Or.inl h)
        · rcases List.mem_cons.mp hj2 with rfl | hj3
          · subst hje
            rw [hch] at hch2
            simp only [Option.some.injEq, Prod.mk.injEq] at hch2
            exact Or.inl (Or.inr ⟨hch2.1, hch2.2, rfl⟩)
          · exact Or.inr ⟨⟨j2, hj3, hje⟩, hch2⟩

theorem addRanksP_testBit (b : ChessBoard) :
    ∀ (ks : List (Nat × List Char)) (B : ChessBoard) (c : Color) (pc : Piece) (t : Nat),
    ((getCP (ks.foldl (fun B2 lr => addFiles b lr.1 (List.range 8) B2) B) c pc).testBit t = true ↔
      ((getCP B c pc).testBit t = true ∨
       ((∃ k ∈ ks.map Prod.fst, ∃ j ∈ List.range 8, k * 8 + j = t) ∧
         chooseAt b t = some (c, pc)))) := by
  intro ks
  induction ks with
  | nil =>
    intro B c pc t
    simp
  | cons kl rest ih =>
    intro B c pc t
    rw [List.foldl_cons, ih, addFiles_testBit]
    constructor
    · rintro ((h | ⟨⟨j2, hj2, hje⟩, hch⟩) | ⟨⟨k2, hk2, j2, hj2, hje⟩, hch⟩)
      · exact Or.inl h
      · exact Or.inr ⟨⟨kl.1, by simp, j2, hj2, hje⟩, hch⟩
      · refine Or.inr ⟨⟨k2, ?_, j2, hj2, hje⟩, hch⟩
        rw [List.map_cons]
        exact List.mem_cons_of_mem _ hk2
    · rintro (h | ⟨⟨k2, hk2, j2, hj2, hje⟩, hch⟩)
      · exact Or.inl (Or.inl h)
      · rw [List.map_cons] at hk2
        rcases List.mem_cons.mp hk2 with rfl | hk3
        · exact Or.inl (Or.inr ⟨⟨j2, hj2, hje⟩, hch⟩)
        · exact Or.inr ⟨⟨k2, hk3, j2, hj2, hje⟩, hch⟩

theorem getCP_empty (c : Color) (pc : Piece) : getCP ChessBoard.emptyB c pc = 0 := by
  cases c <;> cases pc <;> rfl

theorem getCP_mem (b : ChessBoard) (c : Color) (pc : Piece) :
    getCP b c pc ∈ boardsList b := by
  cases c <;> cases pc <;>
    simp [boardsList, getCP, ChessBoard.get, ChessBoardSide.get]

theorem board_eq_of_getCP (B b : ChessBoard)
    (h : ∀ c pc, getCP B c pc = getCP b c pc) : B = b := by
  obtain ⟨⟨ap, an, ab2, ar, aq, ak⟩, ⟨cp, cn, cb2, cr, cq, ck⟩⟩ := B
  obtain ⟨⟨dp, dn, db2, dr, dq, dk⟩, ⟨ep, en, eb2, er, eq2, ek⟩⟩ := b
  have h1 := h .White .Pawn
  have h2 := h .White .Knight
  have h3 := h .White .Bishop
  have h4 := h .White .Rook
  have h5 := h .White .Queen
  have h6 := h .White .King
  have h7 := h .Black .Pawn
  have h8 := h .Black .Knight
  have h9 := h .Black .Bishop
  have h10 := h .Black .Rook
  have h11 := h .Black .Queen
  have h12 := h .Black .King
  simp only [getCP, ChessBoard.get, ChessBoardSide.get] at h1 h2 h3 h4 h5 h6 h7 h8 h9 h10 h11 h12
  subst h1; subst h2; subst h3; subst h4; subst h5; subst h6
  subst h7; subst h8; subst h9; subst h10; subst h11; subst h12
  rfl

theorem wf_hdisj (b : ChessBoard)
    (hpw : (boardsList b).Pairwise (fun x y => x &&& y = 0)) :
    ∀ sq, findPieceAt b.white sq = none ∨ findPieceAt b.black sq = none := by
  intro sq
  rcases hw : findPieceAt b.white sq with _ | pw
  · exact Or.inl rfl
  · rcases hb : findPieceAt b.black sq with _ | pb
    · exact Or.inr rfl
    · have hwt := (findw_iff b hpw sq pw).mp hw
      have hbt := (findb_iff b hpw sq pb).mp hb
      exact (disj_not_both _ _ _ (wf_cross b hpw pw pb) hwt hbt).elim

theorem splitOnChar_ne_nil (sep : Char) : ∀ cs, splitOnChar sep cs ≠ [] := by
  intro cs
  induction cs with
  | nil => simp [splitOnChar]
  | cons c rest ih =>
    simp only [splitOnChar]
    by_cases h : c = sep
    · simp [h]
    · rw [if_neg h]
      rcases hr : splitOnChar sep rest with _ | ⟨hd, tl⟩ <;> simp

theorem splitOnChar_no_sep (sep : Char) : ∀ cs, sep ∉ cs → splitOnChar sep cs = [cs] := by
  intro cs
  induction cs with
  | nil => intro _; rfl
  | cons c rest ih =>
    intro h
    have hc : ¬(c = sep) := by
      intro he; subst he; exact h (List.mem_cons_self _ _)
    have hrest : sep ∉ rest := fun hm => h (List.mem_cons_of_mem _ hm)
    simp only [splitOnChar]
    rw [if_neg hc, ih hrest]

theorem splitOnChar_append (sep : Char) : ∀ l cs, sep ∉ l →
    splitOnChar sep (l ++ sep :: cs) = l :: splitOnChar sep cs := by
  intro l
  induction l with
  | nil =>
    intro cs _
    simp [splitOnChar]
  | cons c l2 ih =>
    intro cs h
    have hc : ¬(c = sep) := by
      intro he; subst he; exact h (List.mem_cons_self _ _)
    have hl : sep ∉ l2 := fun hm => h (List.mem_cons_of_mem _ hm)
    simp only [List.cons_append, splitOnChar]
    rw [if_neg hc, List.append_eq, ih cs hl]

theorem joinSep_split (sep : Char) : ∀ ls, ls ≠ [] → (∀ l ∈ ls, sep ∉ l) →
    splitOnChar sep (joinSep [sep] ls) = ls := by
  intro ls
  induction ls with
  | nil => intro h; exact absurd rfl h
  | cons l rest ih =>
    intro _ h
    rcases rest with _ | ⟨l2, rest2⟩
    · exact splitOnChar_no_sep sep l (h l (List.mem_cons_self _ _))
    · rw [show joinSep [sep] (l :: l2 :: rest2) = l ++ sep :: joinSep [sep] (l2 :: rest2) from by
        rw [show joinSep [sep] (l :: l2 :: rest2) =
          l ++ [sep] ++ joinSep [sep] (l2 :: rest2) from rfl]
        simp]
      rw [splitOnChar_append sep l _ (h l (List.mem_cons_self _ _))]
      rw [ih (by simp) (fun l2 hm => h l2 (List.mem_cons_of_mem _ hm))]

theorem digit_okc {p : Nat} (h1 : 0 < p) (hp : p ≤ 8) :
    Char.ofNat (48 + p) ≠ '/' ∧ isWS (Char.ofNat (48 + p)) = false := by
  interval_cases p <;> exact ⟨by decide, by decide⟩

theorem pieceChar_okc (pc : Piece) :
    (pieceChar pc ≠ '/' ∧ isWS (pieceChar pc) = false) ∧
    (pieceCharLower pc ≠ '/' ∧ isWS (pieceCharLower pc) = false) := by
  cases pc <;> exact ⟨⟨by decide, by decide⟩, ⟨by decide, by decide⟩⟩

theorem fenSquareChars_ok (b : ChessBoard) (sq : Nat) :
    ∀ c ∈ fenSquareChars b sq, c ≠ '/' ∧ isWS c = false := by
  intro c hm
  rcases hw : findPieceAt b.white sq with _ | pw
  · rcases hb : findPieceAt b.black sq with _ | pb
    · simp [fenSquareChars, hw, hb] at hm
    · simp [fenSquareChars, hw, hb] at hm
      subst hm; exact (pieceChar_okc pb).2
  · rcases hb : findPieceAt b.black sq with _ | pb
    · simp [fenSquareChars, hw, hb] at hm
      subst hm; exact (pieceChar_okc pw).1
    · simp [fenSquareChars, hw, hb] at hm
      rcases hm with rfl | rfl
      · exact (pieceChar_okc pw).1
      · exact (pieceChar_okc pb).2

theorem emitFiles_ok (b : ChessBoard) (k : Nat) :
    ∀ (js : List Nat) (p : Nat), p + js.length ≤ 8 →
      ∀ c ∈ emitFiles b k js p, c ≠ '/' ∧ isWS c = false := by
  intro js
  induction js with
  | nil =>
    intro p hp c hm
    simp only [emitFiles] at hm
    by_cases h : p > 0
    · rw [if_pos h] at hm
      simp at hm
      subst hm
      exact digit_okc h (by simpa using hp)
    · rw [if_neg h] at hm; cases hm
  | cons j rest ih =>
    intro p hp c hm
    simp only [emitFiles] at hm
    by_cases he : (fenSquareChars b (k * 8 + j)).isEmpty
    · rw [if_pos he] at hm
      exact ih (p+1) (by simp at hp; omega) c hm
    · rw [if_neg he] at hm
      rcases List.mem_append.mp hm with hm2 | hm3
      · rcases List.mem_append.mp hm2 with hm4 | hm5
        · by_cases h : p > 0
          · rw [if_pos h] at hm4
            simp at hm4
            subst hm4
            exact digit_okc h (by simp at hp; omega)
          · rw [if_neg h] at hm4; cases hm4
        · exact fenSquareChars_ok b _ c hm5
      · exact ih 0 (by simp at hp; omega) c hm3

theorem emitFiles_ne (b : ChessBoard) (k : Nat) :
    ∀ (js : List Nat) (p : Nat), 0 < p + js.length → emitFiles b k js p ≠ [] := by
  intro js
  induction js with
  | nil =>
    intro p hp
    simp only [emitFiles]
    rw [if_pos (by simpa using hp)]
    simp
  | cons j rest ih =>
    intro p hp
    simp only [emitFiles]
    by_cases he : (fenSquareChars b (k * 8 + j)).isEmpty
    · rw [if_pos he]
      exact ih (p+1) (by omega)
    · rw [if_neg he]
      rcases hcs : fenSquareChars b (k * 8 + j) with _ | ⟨c0, cs0⟩
      · rw [hcs] at he; simp at he
      · by_cases hpp : p > 0 <;> simp [hpp, hcs]

theorem fenRankOut_ok (b : ChessBoard) (k : Nat) :
    ∀ c ∈ fenRankOut b k, c ≠ '/' ∧ isWS c = false := by
  rw [fenRankOut_eq]
  exact emitFiles_ok b k (List.range 8) 0 (by simp)

theorem fenRankOut_ne (b : ChessBoard) (k : Nat) : fenRankOut b k ≠ [] := by
  rw [fenRankOut_eq]
  exact emitFiles_ne b k (List.range 8) 0 (by simp)

theorem to_fen_split (b : ChessBoard) :
    splitOnChar '/' (chess_board_to_fen b) =
      (List.range 8).reverse.map (fun i => fenRankOut b i) := by
  unfold chess_board_to_fen
  apply joinSep_split
  · simp
  · intro l hm
    rw [List.mem_map] at hm
    obtain ⟨i, hi, rfl⟩ := hm
    intro hmem
    exact (fenRankOut_ok b i '/' hmem).1 rfl

theorem parse_lines (b : ChessBoard)
    (hdisj : ∀ sq, findPieceAt b.white sq = none ∨ findPieceAt b.black sq = none) :
    ∀ (ks : List (Nat × List Char)) (B : ChessBoard),
    (∀ kl ∈ ks, kl.1 < 8 ∧ kl.2 = fenRankOut b kl.1) →
    ks.foldl (fun acc lr =>
      match acc with
      | none => none
      | some b2 => fenLineOnto lr.1 lr.2 0 b2) (some B)
      = some (ks.foldl (fun B2 lr => addFiles b lr.1 (List.range 8) B2) B) := by
  intro ks
  induction ks with
  | nil => intro B _; rfl
  | cons kl rest ih =>
    intro B h
    obtain ⟨hk, hl⟩ := h kl (List.mem_cons_self _ _)
    have hr := parse_emit b hdisj kl.1 hk 8 0 0 B (by omega) (by omega)
    rw [← List.range_eq_range'] at hr
    simp only [Nat.sub_zero] at hr
    simp only [List.foldl_cons]
    show List.foldl _ (fenLineOnto kl.1 kl.2 0 B) rest =
      some (List.foldl _ (addFiles b kl.1 (List.range 8) B) rest)
    rw [hl, fenRankOut_eq, hr]
    exact ih _ (fun kl2 hm => h kl2 (List.mem_cons_of_mem _ hm))

theorem chess_board_roundtrip (b : ChessBoard) (hwf : b.wf) :
    chess_board_from_fen (chess_board_to_fen b) = some b := by
  obtain ⟨hlt, hpw⟩ := hwf
  have hdisj := wf_hdisj b hpw
  have hlines := to_fen_split b
  simp only [chess_board_from_fen]
  rw [hlines, List.map_reverse, List.reverse_reverse]
  have henum : ((List.range 8).map (fun i => fenRankOut b i)).enum =
      [(0, fenRankOut b 0), (1, fenRankOut b 1), (2, fenRankOut b 2),
       (3, fenRankOut b 3), (4, fenRankOut b 4), (5, fenRankOut b 5),
       (6, fenRankOut b 6), (7, fenRankOut b 7)] := rfl
  rw [henum]
  rw [parse_lines b hdisj
    [(0, fenRankOut b 0), (1, fenRankOut b 1), (2, fenRankOut b 2),
     (3, fenRankOut b 3), (4, fenRankOut b 4), (5, fenRankOut b 5),
     (6, fenRankOut b 6), (7, fenRankOut b 7)] ChessBoard.emptyB
    (by intro kl hm; fin_cases hm <;> exact ⟨by omega, rfl⟩)]
  refine congrArg some (board_eq_of_getCP _ _ ?_)
  intro c pc
  apply Nat.eq_of_testBit_eq
  intro t
  have hfold := addRanksP_testBit b
    [(0, fenRankOut b 0), (1, fenRankOut b 1), (2, fenRankOut b 2),
     (3, fenRankOut b 3), (4, fenRankOut b 4), (5, fenRankOut b 5),
     (6, fenRankOut b 6), (7, fenRankOut b 7)] ChessBoard.emptyB c pc t
  by_cases ht : t < 64
  · have hex : ∃ k ∈ ([(0, fenRankOut b 0), (1, fenRankOut b 1), (2, fenRankOut b 2),
       (3, fenRankOut b 3), (4, fenRankOut b 4), (5, fenRankOut b 5),
       (6, fenRankOut b 6), (7, fenRankOut b 7)].map Prod.fst),
        ∃ j ∈ List.range 8, k * 8 + j = t := by
      refine ⟨t / 8, ?_, t % 8, ?_, by omega⟩
      · show t / 8 ∈ List.range 8
        rw [List.mem_range]; omega
      · rw [List.mem_range]; omega
    rw [Bool.eq_iff_iff, hfold]
    constructor
    · rintro (h | ⟨_, hch⟩)
      · rw [getCP_empty] at h; simp at h
      · exact (chooseAt_iff b hpw t c pc).mp hch
    · intro h
      exact Or.inr ⟨hex, (chooseAt_iff b hpw t c pc).mpr h⟩
  · have hbf : (getCP b c pc).testBit t = false := by
      apply Nat.testBit_lt_two_pow
      calc getCP b c pc < 2^64 := hlt _ (getCP_mem b c pc)
        _ ≤ 2^t := Nat.pow_le_pow_right (by omega) (by omega)
    rw [Bool.eq_iff_iff, hfold]
    constructor
    · rintro (h | ⟨⟨k, hk, j, hj, hje⟩, _⟩)
      · rw [getCP_empty] at h; simp at h
      · exfalso
        have hk8 : k ∈ List.range 8 := hk
        rw [List.mem_range] at hk8
        rw [List.mem_range] at hj
        omega
    · intro h
      rw [hbf] at h
      simp at h

theorem map_norm_id : ∀ (a : List Char), (∀ c ∈ a, isWS c = false) →
    a.map (fun c => if isWS c then ' ' else c) = a := by
  intro a
  induction a with
  | nil => intro _; rfl
  | cons c l ih =>
    intro h
    simp only [List.map_cons]
    rw [if_neg (by simp [h c (List.mem_cons_self _ _)]),
      ih (fun c2 hm => h c2 (List.mem_cons_of_mem _ hm))]

theorem ws_not_mem (a : List Char) (h : ∀ c ∈ a, isWS c = false) : ' ' ∉ a :=
  fun hm => absurd (h ' ' hm) (by decide)

theorem splitWS_cons (a rest : List Char) (ha : a ≠ []) (haw : ∀ c ∈ a, isWS c = false) :
    splitWS (a ++ ' ' :: rest) = a :: splitWS rest := by
  unfold splitWS
  rw [List.map_append, map_norm_id a haw, List.map_cons]
  rw [ite_self]
  rw [splitOnChar_append ' ' a _ (ws_not_mem a haw)]
  have hne : (!a.isEmpty) = true := by
    cases a with
    | nil => exact absurd rfl ha
    | cons _ _ => rfl
  rw [List.filter_cons, if_pos hne]

theorem splitWS_single (g : List Char) (hg : g ≠ []) (hgw : ∀ c ∈ g, isWS c = false) :
    splitWS g = [g] := by
  unfold splitWS
  rw [map_norm_id g hgw, splitOnChar_no_sep ' ' g (ws_not_mem g hgw)]
  have hne : (!g.isEmpty) = true := by
    cases g with
    | nil => exact absurd rfl hg
    | cons _ _ => rfl
  rw [List.filter_cons, if_pos hne]
  rfl

theorem joinSep_mem (sep : Char) : ∀ (ls : List (List Char)) (c : Char),
    c ∈ joinSep [sep] ls → c = sep ∨ ∃ l ∈ ls, c ∈ l := by
  intro ls
  induction ls with
  | nil => intro c hm; cases hm
  | cons l rest ih =>
    intro c hm
    rcases rest with _ | ⟨l2, rest2⟩
    · exact Or.inr ⟨l, List.mem_cons_self _ _, hm⟩
    · rw [show joinSep [sep] (l :: l2 :: rest2) = l ++ sep :: joinSep [sep] (l2 :: rest2) from by
        rw [show joinSep [sep] (l :: l2 :: rest2) =
          l ++ [sep] ++ joinSep [sep] (l2 :: rest2) from rfl]
        simp] at hm
      rcases List.mem_append.mp hm with h1 | h2
      · exact Or.inr ⟨l, List.mem_cons_self _ _, h1⟩
      · rcases List.mem_cons.mp h2 with rfl | h3
        · exact Or.inl rfl
        · rcases ih c h3 with h4 | ⟨l3, hl3, hc3⟩
          · exact Or.inl h4
          · exact Or.inr ⟨l3, List.mem_cons_of_mem _ hl3, hc3⟩

theorem to_fen_ws (b : ChessBoard) : ∀ c ∈ chess_board_to_fen b, isWS c = false := by
  intro c hm
  unfold chess_board_to_fen at hm
  rcases joinSep_mem '/' _ c hm with rfl | ⟨l, hl, hc⟩
  · decide
  · rw [List.mem_map] at hl
    obtain ⟨i, _, rfl⟩ := hl
    exact (fenRankOut_ok b i c hc).2

theorem joinSep_ne (sep : Char) (l : List Char) (rest : List (List Char)) (hl : l ≠ []) :
    joinSep [sep] (l :: rest) ≠ [] := by
  rcases rest with _ | ⟨l2, rest2⟩
  · exact hl
  · rw [show joinSep [sep] (l :: l2 :: rest2) =
      l ++ [sep] ++ joinSep [sep] (l2 :: rest2) from rfl]
    simp

theorem to_fen_ne (b : ChessBoard) : chess_board_to_fen b ≠ [] := by
  unfold chess_board_to_fen
  rw [show (List.range 8).reverse.map (fun i => fenRankOut b i) =
    fenRankOut b 7 :: ([6,5,4,3,2,1,0].map (fun i => fenRankOut b i)) from rfl]
  exact joinSep_ne '/' _ _ (fenRankOut_ne b 7)

theorem flags_rt (f : StateFlags) :
    ∃ a cl, flags_to_fen f = [a, ' '] ++ cl ∧ cl ≠ [] ∧
      (∀ c ∈ a :: cl, isWS c = false) ∧ flags_from_fen a cl = some f := by
  obtain ⟨c, k, q, k2, q2⟩ := f
  cases c <;> cases k <;> cases q <;> cases k2 <;> cases q2 <;>
    exact ⟨_, _, rfl, by decide, by decide, rfl⟩

theorem lsbIdx_sqBB : ∀ sq : Fin 64, lsbIdx (sqBB sq.1) = sq.1 := by decide

theorem sqBB_ne_zero (sq : Nat) : sqBB sq ≠ 0 := by
  unfold sqBB
  rw [Nat.shiftLeft_eq, one_mul]
  have := Nat.two_pow_pos sq
  omega

theorem ep_parse : ∀ sq : Fin 48,
    square_try_from (squareToChars sq.1) = .ok sq.1 ∧
    squareToChars sq.1 ≠ ['-'] ∧
    (∀ c ∈ squareToChars sq.1, isWS c = false) ∧
    squareToChars sq.1 ≠ [] := by decide

theorem parseU8_rt : ∀ n : Fin 256,
    parseU8 (natToChars n.1) = some n.1 ∧ natToChars n.1 ≠ [] ∧
    ∀ c ∈ natToChars n.1, isWS c = false := by decide

theorem state_from_fen_eval (cs : List Char) (b1 : List Char) (ac : Char)
    (c1 e1 hm1 g1 : List Char)
    (hs : splitWS cs = [b1, [ac], c1, e1, hm1, g1]) :
    state_from_fen cs =
      (match chess_board_from_fen b1 with
       | none => none
       | some boards =>
         match flags_from_fen ac c1 with
         | none => none
         | some flags =>
           match (if e1 = ['-'] then some 0
             else match square_try_from e1 with
               | .ok sq => some (sqBB sq)
               | _ => none) with
           | none => none
           | some en_passant =>
             match parseU8 hm1 with
             | none => none
             | some halfmove =>
               some { boards := boards, en_passant := en_passant,
                      flags := flags, halfmove := halfmove }) := by
  unfold state_from_fen
  rw [hs]

theorem state_fen_parts (s : State) (hv : stateValid s) (g : List Char) (hg : g ≠ [])
    (hgw : ∀ c ∈ g, isWS c = false) :
    state_from_fen (fenBody s ++ ' ' :: g) = some s := by
  obtain ⟨hwf, hep, hhm⟩ := hv
  obtain ⟨a, cl, hfl, hclne, hflws, hflrt⟩ := flags_rt s.flags
  obtain ⟨epf, hepfEq, hepfne, hepfws, hepfparse⟩ :
      ∃ epf : List Char,
        (if s.en_passant = 0 then ['-']
         else squareToChars (lsbIdx s.en_passant)) = epf ∧ epf ≠ [] ∧
        (∀ c ∈ epf, isWS c = false) ∧
        (if epf = ['-'] then some 0
         else match square_try_from epf with
           | .ok sq => some (sqBB sq)
           | _ => none) = some s.en_passant := by
    rcases hep with h0 | ⟨f, hf8, hf⟩
    · exact ⟨['-'], by rw [if_pos h0], by decide, by decide, by rw [if_pos rfl, h0]⟩
    · interval_cases f <;> rcases hf with hE | hE <;>
        exact ⟨squareToChars (lsbIdx s.en_passant),
          by rw [hE]; decide, by rw [hE]; decide,
          by rw [hE]; decide, by rw [hE]; decide⟩
  have hpu := parseU8_rt ⟨s.halfmove, hhm⟩
  have hassoc : fenBody s ++ ' ' :: g =
      chess_board_to_fen s.boards ++ ' ' ::
        ([a] ++ ' ' :: (cl ++ ' ' :: (epf ++ ' ' ::
          (natToChars s.halfmove ++ ' ' :: g)))) := by
    unfold fenBody
    rw [hfl, hepfEq]
    simp [List.append_assoc]
  have hsplit : splitWS (fenBody s ++ ' ' :: g) =
      [chess_board_to_fen s.boards, [a], cl, epf, natToChars s.halfmove, g] := by
    rw [hassoc]
    rw [splitWS_cons _ _ (to_fen_ne s.boards) (to_fen_ws s.boards)]
    rw [splitWS_cons [a] _ (by simp)
      (fun c hm => by
        rw [List.mem_singleton] at hm
        subst hm
        exact hflws _ (List.mem_cons_self _ _))]
    rw [splitWS_cons cl _ hclne (fun c hm => hflws c (List.mem_cons_of_mem _ hm))]
    rw [splitWS_cons epf _ hepfne hepfws]
    rw [splitWS_cons _ _ hpu.2.1 hpu.2.2]
    rw [splitWS_single g hg hgw]
  rw [state_from_fen_eval _ _ _ _ _ _ _ hsplit]
  rw [chess_board_roundtrip s.boards hwf, hflrt, hepfparse, hpu.1]

/-- Claim C8: for every state the core stores (well-formed pairwise-disjoint
64-bit piece boards, en-passant board empty or a single marker square on the
third or sixth rank, halfmove counter below 256),
`state_from_fen (state_to_fen s) = some s`; `to_fen` always emits the
fullmove field as the literal "1", and `from_fen` ignores the fullmove
field (any nonempty whitespace-free final field `g` parses to the same
state). -/
theorem c8_fen_roundtrip (s : State) (hv : stateValid s) (g : List Char) (hg : g ≠ [])
    (hgw : ∀ c ∈ g, isWS c = false) :
    state_from_fen (state_to_fen s) = some s ∧
    state_to_fen s = fenBody s ++ [' ', '1'] ∧
    state_from_fen (fenBody s ++ ' ' :: g) = some s := by
  have h1 : state_to_fen s = fenBody s ++ [' ', '1'] := by
    unfold state_to_fen fenBody
    simp [List.append_assoc]
  have h3 := state_fen_parts s hv g hg hgw
  refine ⟨?_, h1, h3⟩
  rw [h1, show fenBody s ++ [' ', '1'] = fenBody s ++ ' ' :: ['1'] from rfl]
  exact state_fen_parts s hv ['1'] (by simp) (by decide)

theorem c8_fen_roundtrip_witness :
    stateValid ((state_from_fen startFen).getD dummyState) ∧
    state_from_fen (state_to_fen ((state_from_fen startFen).getD dummyState)) =
      some ((state_from_fen startFen).getD dummyState) :=
  have hv : stateValid ((state_from_fen startFen).getD dummyState) :=
    ⟨⟨by decide, by decide⟩, Or.inl (by decide), by decide⟩
  ⟨hv, (c8_fen_roundtrip _ hv ['1'] (by decide) (by decide)).1⟩



theorem cons_swap_perm (x b : Nat) (T D : List Nat) :
    (b :: (T ++ x :: D)).Perm (x :: (T ++ b :: D)) :=
  (List.Perm.cons b List.perm_middle).trans
    ((List.Perm.swap x b (T ++ D)).trans (List.Perm.cons x List.perm_middle.symm))

theorem set_decomp (t : List Nat) (m : Nat) (b : Nat) (hm : t.get? m = some b) (y : Nat) :
    t = t.take m ++ b :: t.drop (m+1) ∧ t.set m y = t.take m ++ y :: t.drop (m+1) := by
  have hlt : m < t.length := List.get?_eq_some.mp hm |>.1
  have hb2 : t[m] = b := by
    have h := hm
    rw [List.get?_eq_getElem?] at h
    rw [List.getElem?_eq_getElem hlt] at h
    exact Option.some.inj h
  constructor
  · conv_lhs => rw [← List.take_append_drop m t]
    congr 1
    rw [List.drop_eq_getElem_cons hlt, hb2]
  · rw [List.set_eq_take_append_cons_drop, if_pos hlt]

theorem listSwap_perm (l : List Nat) : ∀ i j, (listSwap l i j).Perm l := by
  induction l with
  | nil => intro i j; simp [listSwap]
  | cons x t ih =>
    intro i j
    match i, j with
    | 0, 0 => simp [listSwap]
    | 0, m+1 =>
      simp only [listSwap, List.get?_cons_succ, List.get?_cons_zero]
      cases hm : t.get? m with
      | none => exact List.Perm.refl _
      | some b =>
        obtain ⟨h1, h2⟩ := set_decomp t m b hm x
        show (b :: t.set m x).Perm (x :: t)
        rw [h2]
        conv_rhs => rw [h1]
        exact cons_swap_perm x b _ _
    | n+1, 0 =>
      simp only [listSwap, List.get?_cons_succ, List.get?_cons_zero]
      cases hn : t.get? n with
      | none => exact List.Perm.refl _
      | some a =>
        obtain ⟨h1, h2⟩ := set_decomp t n a hn x
        show (a :: t.set n x).Perm (x :: t)
        rw [h2]
        conv_rhs => rw [h1]
        exact cons_swap_perm x a _ _
    | n+1, m+1 =>
      simp only [listSwap, List.get?_cons_succ]
      cases hn : t.get? n with
      | none => exact List.Perm.refl _
      | some a =>
        cases hm : t.get? m with
        | none => exact List.Perm.refl _
        | some b =>
          have h := ih n m
          unfold listSwap at h
          rw [hn, hm] at h
          exact List.Perm.cons x h

theorem orderPlyLoud_perm : ∀ (fuel : Nat) (ply : List Nat) (i sorted : Nat),
    (orderPlyLoud fuel ply i sorted).Perm ply := by
  intro fuel
  induction fuel with
  | zero => intro ply i s; exact List.Perm.refl _
  | succ fuel ih =>
    intro ply i s
    simp only [orderPlyLoud]
    split
    · split
      · exact (ih _ _ _).trans (listSwap_perm ply i s)
      · exact ih _ _ _
    · exact List.Perm.refl _

theorem orderPlyFront_perm (ply : List Nat) (first : Option Nat) :
    (orderPlyFront ply first).1.Perm ply := by
  cases first with
  | none => simp [orderPlyFront]
  | some f =>
    cases h : ply.findIdx? (fun m => m = f) with
    | none => simp [orderPlyFront, h]
    | some i =>
      simp [orderPlyFront, h]
      exact listSwap_perm ply i 0

theorem orderPlySlice_perm (ply : List Nat) (first : Option Nat) :
    (orderPlySlice ply first).Perm ply := by
  unfold orderPlySlice
  exact (orderPlyLoud_perm _ _ _ _).trans (orderPlyFront_perm ply first)

/-- Claim C10: `MoveList.order_ply` only permutes the current-ply slice of
the move arena in place: the ply frame fields (`ply_first_move`,
`current_ply`, `total_count`) are unchanged, the arena before the current
ply's first move and at or beyond `total_count` is unchanged, and the
current-ply slice after the call is a permutation of the slice before. -/
theorem c10_order_ply (ml : MoveList) (first : Option Nat)
    (hlo : ml.ply_first_move.getD ml.current_ply 0 ≤ ml.total_count)
    (htc : ml.total_count ≤ ml.moves.length) :
    (ml.order_ply first).ply_first_move = ml.ply_first_move ∧
    (ml.order_ply first).current_ply = ml.current_ply ∧
    (ml.order_ply first).total_count = ml.total_count ∧
    (ml.order_ply first).moves.take (ml.ply_first_move.getD ml.current_ply 0) =
      ml.moves.take (ml.ply_first_move.getD ml.current_ply 0) ∧
    (ml.order_ply first).moves.drop ml.total_count = ml.moves.drop ml.total_count ∧
    (((ml.order_ply first).moves.take ml.total_count).drop
        (ml.ply_first_move.getD ml.current_ply 0)).Perm
      ((ml.moves.take ml.total_count).drop (ml.ply_first_move.getD ml.current_ply 0)) := by
  have hmoves : (ml.order_ply first).moves =
      ml.moves.take (ml.ply_first_move.getD ml.current_ply 0) ++
        orderPlySlice ((ml.moves.take ml.total_count).drop
          (ml.ply_first_move.getD ml.current_ply 0)) first ++
        ml.moves.drop ml.total_count := rfl
  generalize hL : ml.ply_first_move.getD ml.current_ply 0 = lo at hlo hmoves ⊢
  have hfrontLen : (ml.moves.take lo).length = lo := by
    rw [List.length_take]; omega
  have hmidLen : ((ml.moves.take ml.total_count).drop lo).length = ml.total_count - lo := by
    rw [List.length_drop, List.length_take]; omega
  have hperm := orderPlySlice_perm ((ml.moves.take ml.total_count).drop lo) first
  have hslen := hperm.length_eq
  have hlen2 : (ml.moves.take lo ++
      orderPlySlice ((ml.moves.take ml.total_count).drop lo) first).length = ml.total_count := by
    rw [List.length_append, hslen, hfrontLen, hmidLen]; omega
  rw [List.length_append] at hlen2
  generalize hS : orderPlySlice ((ml.moves.take ml.total_count).drop lo) first = S
    at hmoves hperm hslen hlen2
  generalize hF : ml.moves.take lo = F at hmoves hfrontLen hlen2
  generalize hB : ml.moves.drop ml.total_count = B at hmoves
  have hlen3 : (F ++ S).length = ml.total_count := by
    rw [List.length_append]; omega
  refine ⟨rfl, rfl, rfl, ?_, ?_, ?_⟩
  · rw [hmoves, ← hfrontLen, List.append_assoc, List.take_left]
  · rw [hmoves, ← hlen3, List.drop_left]
  · rw [hmoves]
    nth_rewrite 1 [← hlen3]
    rw [List.take_left]
    nth_rewrite 1 [← hfrontLen]
    rw [List.drop_left]
    exact hperm

theorem c10_order_ply_witness :
    (mlW.ply_first_move.getD mlW.current_ply 0 ≤ mlW.total_count ∧
      mlW.total_count ≤ mlW.moves.length) ∧
    ((mlW.order_ply none).ply_first_move = mlW.ply_first_move ∧
     (mlW.order_ply none).current_ply = mlW.current_ply ∧
     (mlW.order_ply none).total_count = mlW.total_count ∧
     (mlW.order_ply none).moves.take (mlW.ply_first_move.getD mlW.current_ply 0) =
       mlW.moves.take (mlW.ply_first_move.getD mlW.current_ply 0) ∧
     (mlW.order_ply none).moves.drop mlW.total_count = mlW.moves.drop mlW.total_count ∧
     (((mlW.order_ply none).moves.take mlW.total_count).drop
         (mlW.ply_first_move.getD mlW.current_ply 0)).Perm
       ((mlW.moves.take mlW.total_count).drop
         (mlW.ply_first_move.getD mlW.current_ply 0))) :=
  ⟨⟨by decide, by decide⟩, c10_order_ply mlW none (by decide) (by decide)⟩



theorem and_one_lt_two (x : Nat) : x &&& 1 < 2 := by
  have := Nat.and_one_is_mod x
  omega

theorem nifz_zero {α : Sort u} (a b : α) : nifz 0 a b = a := rfl

theorem nifz_succ {α : Sort u} (k : Nat) (a b : α) : nifz (k+1) a b = b := rfl

theorem nifz_eq_if {α : Sort u} (x : Nat) (a b : α) :
    nifz x a b = if x = 0 then a else b := by
  cases x with
  | zero => rfl
  | succ k => simp [nifz_succ]

theorem castleRight_iff (p : Nat) (c : Color) (s : CSide) :
    castleRight p c s = true ↔ (p >>> (833 + castleIdx c s)) &&& 1 ≠ 0 := by
  have h2 := and_one_lt_two (p >>> (833 + castleIdx c s))
  unfold castleRight
  constructor
  · intro h
    simp only [decide_eq_true_eq] at h
    omega
  · intro h
    simp only [decide_eq_true_eq]
    omega

theorem castleSideMoves_eq (p : Nat) (c : Color) (side : CSide) (ml : Nat) :
    castleSideMoves p c side ml =
      if castleRight p c side = true ∧
         (occupancy p 0 ||| occupancy p 384) &&& castle_empty c side = 0 ∧
         ∀ sq ∈ castle_check c side, is_square_attacked p sq c.not = false
      then mlPush ml (mkMove (kingSource c) (castle_king_target c side) (codeFromCastle side))
      else ml := by
  unfold castleSideMoves
  rw [nifz_eq_if, nifz_eq_if]
  have hcr := castleRight_iff p c side
  by_cases h1 : (p >>> (833 + castleIdx c side)) &&& 1 = 0
  · rw [if_pos h1, if_neg]
    intro hand
    exact (hcr.mp hand.1) h1
  · rw [if_neg h1]
    by_cases h2 : (occupancy p 0 ||| occupancy p 384) &&& castle_empty c side = 0
    · rw [if_pos h2]
      by_cases h3 : ∀ sq ∈ castle_check c side, is_square_attacked p sq c.not = false
      · rw [if_pos ⟨hcr.mpr h1, h2, h3⟩]
        have hall : (castle_check c side).all (fun sq => !is_square_attacked p sq c.not) = true := by
          rw [List.all_eq_true]
          intro x hx
          rw [Bool.not_eq_true']
          exact h3 x hx
        rw [hall]
        rfl
      · rw [if_neg (fun hand => h3 hand.2.2)]
        have hall : (castle_check c side).all (fun sq => !is_square_attacked p sq c.not) = false := by
          rw [Bool.eq_false_iff]
          intro hall
          rw [List.all_eq_true] at hall
          exact h3 (fun x hx => by
            have hx2 := hall x hx
            rw [Bool.not_eq_true'] at hx2
            exact hx2)
        rw [hall]
        rfl
    · rw [if_neg h2, if_neg (fun hand => h2 hand.2.1)]

theorem castle_empty_king (c : Color) :
    castle_empty c .King = sqBB (adaptToColor c 5) ||| sqBB (adaptToColor c 6) := by
  cases c <;> decide

theorem castle_empty_queen (c : Color) :
    castle_empty c .Queen =
      sqBB (adaptToColor c 1) ||| sqBB (adaptToColor c 2) ||| sqBB (adaptToColor c 3) := by
  cases c <;> decide

/-- Claim C6: `castle_moves` pushes the king-side (resp. queen-side) castle
of the active color if and only if that castling right is set, the f- and
g-file (resp. b-, c- and d-file) home-rank squares are all unoccupied, and
none of the three king-path squares of `castle_check` is attacked by the
opponent; the king-side emptiness test equals the two-square set
{f, g} even though the source's `castle_empty` list names the f-square
twice, since the list is used as a bit-set union. -/
theorem c6_castle_moves_iff (p ml : Nat) :
    castle_moves p ml =
      (let c := activeColor p
       let occupation := occupancy p 0 ||| occupancy p 384
       let kCond := castleRight p c .King = true ∧
         occupation &&& (sqBB (adaptToColor c 5) ||| sqBB (adaptToColor c 6)) = 0 ∧
         ∀ sq ∈ castle_check c .King, is_square_attacked p sq c.not = false
       let qCond := castleRight p c .Queen = true ∧
         occupation &&& (sqBB (adaptToColor c 1) ||| sqBB (adaptToColor c 2) |||
           sqBB (adaptToColor c 3)) = 0 ∧
         ∀ sq ∈ castle_check c .Queen, is_square_attacked p sq c.not = false
       let mlK := if kCond then
           mlPush ml (mkMove (kingSource c) (castle_king_target c .King) KING_CASTLE)
         else ml
       if qCond then
         mlPush mlK (mkMove (kingSource c) (castle_king_target c .Queen) QUEEN_CASTLE)
       else mlK) := by
  unfold castle_moves
  rw [castleSideMoves_eq, castleSideMoves_eq, castle_empty_king, castle_empty_queen]
  rfl


/-! The sixteen move-map literals equal the `MoveMaps::new` constructions. -/

theorem knightTable_eq : knightTable = knightMapSpec := by rfl

theorem kingTable_eq : kingTable = kingMapSpec := by rfl

theorem neDiagTable_eq : neDiagTable = neDiagSpec := by rfl

theorem nwDiagTable_eq : nwDiagTable = nwDiagSpec := by rfl

theorem swDiagTable_eq : swDiagTable = swDiagSpec := by rfl

theorem seDiagTable_eq : seDiagTable = seDiagSpec := by rfl

theorem eRankTable_eq : eRankTable = eRankSpec := by rfl

theorem wRankTable_eq : wRankTable = wRankSpec := by rfl

theorem nFileTable_eq : nFileTable = nFileSpec := by rfl

theorem sFileTable_eq : sFileTable = sFileSpec := by rfl

theorem whitePawnPassiveTable_eq : whitePawnPassiveTable = whitePawnPassiveSpec := by rfl

theorem blackPawnPassiveTable_eq : blackPawnPassiveTable = blackPawnPassiveSpec := by rfl

theorem whitePawnAttackTable_eq : whitePawnAttackTable = whitePawnAttackSpec := by rfl

theorem blackPawnAttackTable_eq : blackPawnAttackTable = blackPawnAttackSpec := by rfl

theorem whitePawnDoubleTable_eq : whitePawnDoubleTable = whitePawnDoubleSpec := by rfl

theorem blackPawnDoubleTable_eq : blackPawnDoubleTable = blackPawnDoubleSpec := by rfl

theorem msbIdx_single : ∀ k : Fin 64, msbIdx (1 <<< k.1) = k.1 := by decide

theorem lsbIdx_single : ∀ k : Fin 64, lsbIdx (1 <<< k.1) = k.1 := by decide

/-- Claim C2 is refuted on a concrete reachable state: after the ten-move
sequence `ghostPrefix` from the starting position, white's king-side castle
`e1g1` is pseudo-legal and passes `was_move_legal`, yet
`Position::unmake` of the move right after `Position::make` yields a state
different from the original (`uncastle` computes the rook's restored
source square from `castle_rook_target`, leaving a ghost rook on h1). -/
theorem c2_make_unmake_not_inverse :
    playChecked (pOf startFen) ghostPrefix = some ghostState ∧
    mlHas 256 (pseudo_legal_moves ghostState) ghostCastle = true ∧
    was_move_legal (Position.make noopOps ghostState () ghostCastle).1 = true ∧
    (Position.unmake noopOps (Position.make noopOps ghostState () ghostCastle).1 ()
      ghostCastle (Position.make noopOps ghostState () ghostCastle).2.2).1 ≠ ghostState := by
  refine ⟨by decide, by decide, by decide, by decide⟩

/-- Claim C3 is refuted on a concrete reachable sequence: playing
`ghostPrefix` and then the king-side castle with the incremental Zobrist
hasher (every consume XORs one table word, table `zTest`) produces a hash
different from `ZobristHasher::init` recomputed from scratch on the
resulting state, while the played states themselves agree move by move. -/
theorem c3_zobrist_incremental_diverges :
    playChecked (pOf startFen) (ghostPrefix ++ [ghostCastle]) =
      some (playHashed (zobristOps zTest) (pOf startFen)
        (zobrist_init zTest (pOf startFen)) (ghostPrefix ++ [ghostCastle])).1 ∧
    (playHashed (zobristOps zTest) (pOf startFen)
        (zobrist_init zTest (pOf startFen)) (ghostPrefix ++ [ghostCastle])).2 ≠
      zobrist_init zTest (playHashed (zobristOps zTest) (pOf startFen)
        (zobrist_init zTest (pOf startFen)) (ghostPrefix ++ [ghostCastle])).1 := by
  refine ⟨by decide, by decide⟩

/-- Claim C4 is refuted: `State::is_check` answers the negation of "the king
of the side to move is attacked".  In the starting position (kings on e1 and
e8, neither attacked) it returns true while `is_square_attacked` on the
active king's square returns false; in the fool's-mate position (white king
attacked by the queen on h4) it returns false while `is_square_attacked`
returns true. -/
theorem c4_is_check_negated :
    is_check (pOf startFen) = true ∧
    is_square_attacked (pOf startFen)
      (lsbIdx (board (pOf startFen) (activeBase (pOf startFen) + 320)))
      (activeColor (pOf startFen)).not = false ∧
    is_check (pOf foolFen) = false ∧
    is_square_attacked (pOf foolFen)
      (lsbIdx (board (pOf foolFen) (activeBase (pOf foolFen) + 320)))
      (activeColor (pOf foolFen)).not = true := by
  refine ⟨by decide, by decide, by decide, by decide⟩

/-- Claim C5 is refuted on kiwipete: the quiet rook move h1-g1 (from square
7, white's king-side `castle_rook_source`, moved piece index 3 = rook,
not a castle code) leaves all four castling rights set after
`Position::make`, although the white king-side right should have been
cleared (the source compares the from-square against `castle_rook_target`
instead of `castle_rook_source`). -/
theorem c5_rook_move_keeps_castle_right :
    mlHas 256 (pseudo_legal_moves (pOf kiwiFen)) (mkMove 7 6 QUIET) = true ∧
    castleRight (pOf kiwiFen) .White .King = true ∧
    findPieceIdxAt (pOf kiwiFen) 0 (mFrom (mkMove 7 6 QUIET)) = 3 ∧
    castle_rook_source .White .King = 7 ∧
    codeAsCastle (mCode (mkMove 7 6 QUIET)) = none ∧
    castleRight (Position.make noopOps (pOf kiwiFen) () (mkMove 7 6 QUIET)).1 .White .King = true ∧
    castleRight (Position.make noopOps (pOf kiwiFen) () (mkMove 7 6 QUIET)).1 .White .Queen = true ∧
    castleRight (Position.make noopOps (pOf kiwiFen) () (mkMove 7 6 QUIET)).1 .Black .King = true ∧
    castleRight (Position.make noopOps (pOf kiwiFen) () (mkMove 7 6 QUIET)).1 .Black .Queen = true := by
  refine ⟨by decide, by decide, by decide, by decide, by decide,
    by decide, by decide, by decide, by decide⟩

/-- Claim C7 is refuted at the boundaries: "a1" and "h7" parse to the right
squares, but "h8" (a well-formed square whose rank digit is '8') is
rejected because the source's byte-range pattern `ZERO..EIGHT` excludes
'8', and "a0" underflows the u8 subtraction `rank - ZERO - 1` (a panic
under debug assertions) instead of returning Err. -/
theorem c7_square_try_from_partial :
    square_try_from ['a','1'] = .ok 0 ∧
    square_try_from ['h','7'] = .ok 55 ∧
    square_try_from ['h','8'] = .err ∧
    square_try_from ['a','0'] = .panicked := by
  refine ⟨by decide, by decide, by decide, by decide⟩

/-- Claim C9 is refuted: in the fool's-mate position White is to move, the
white king is attacked and no legal move exists (White is checkmated), so
the claimed terminal score is 0; `white_score` returns 1/2 because
`is_check` (negated, see `c4_is_check_negated`) reports the position as not
check and the stalemate branch is taken. -/
theorem c9_white_score_checkmate_half :
    activeColor (pOf foolFen) = .White ∧
    is_square_attacked (pOf foolFen) (lsbIdx (board (pOf foolFen) 320)) .Black = true ∧
    hasLegalMove (pOf foolFen) = false ∧
    white_score (pOf foolFen) = 1/2 := by
  refine ⟨by decide, by decide, by decide, ?_⟩
  have h : is_check (pOf foolFen) = false := by decide
  simp [white_score, h]

/-- Depth-limited perft agreement with the spec's table (depths 1-2 of the
three positions and depth 3 of position 3; the deeper rows are beyond the
kernel budget of this development and are left open). -/
theorem perft_depths_small :
    recursive_perft 1 (pOf startFen) = 20 ∧
    recursive_perft 2 (pOf startFen) = 400 ∧
    recursive_perft 1 (pOf kiwiFen) = 48 ∧
    recursive_perft 2 (pOf kiwiFen) = 2039 ∧
    recursive_perft 1 (pOf p3Fen) = 14 ∧
    recursive_perft 2 (pOf p3Fen) = 191 ∧
    recursive_perft 3 (pOf p3Fen) = 2812 := by
  refine ⟨by decide, by decide, by decide, by decide,
    by decide, by decide, by decide⟩
